import Mathlib

/-!
Verification development for the `radi` syntactic front end.

The parser (`src/parser.rs`) and the AST size utility (`src/parser/utils.rs`)
are embedded shallowly below.  The token stream is modelled as a `List Token`
(the parser only ever peeks one token ahead and consumes from the front), and
the mutually recursive parsing functions are modelled as a fuel-indexed family
`parseFns : Nat -> Fns`, where level `n+1` of each parsing function makes all
of its nested parsing calls at level `n`.  Running out of fuel is a
distinguished outcome (`PErr.fuel`) that never occurs on the concrete inputs
used below, and invariant theorems are proved for all fuel levels.

The AST node vocabulary, token kinds and the token-predicate combinators live
in repository files that are not part of the provided sources
(`parser/ast.rs`, `parser/preds.rs`, `tokenizer.rs`); they are modelled from
the specification where so marked.
-/

namespace Radi

/-- Modelled from the spec: `Span` is a half-open byte-offset interval
`{start, end}` attached to every token and AST node (`tokenizer.rs` is not in
the provided sources). -/
structure Span where
  start : Nat
  «end» : Nat
  deriving DecidableEq, Repr

/-- Modelled from the spec: an interned text handle, compared by content and
exposing its length; modelled as the text itself (the interning store is not
in the provided sources). -/
abbrev Intern : Type := String

/-- Byte length of interned text (`Intern::len`, i.e. `i.0.len()`). -/
def Intern.len (i : Intern) : Nat := String.length i

/-- Modelled from the spec: the token kinds required by the grammar of
`parser.rs` (keyword tokens, literal tokens carrying payloads, punctuation
and operator tokens; `tokenizer.rs` is not in the provided sources). -/
inductive TokenKind where
  | Def | Set | Val
  | Float (f : Nat)
  | Integer (i : Int)
  | String (s : Intern)
  | Name (n : Intern)
  | OpenBrace | CloseBrace | OpenParen | CloseParen | DotOpenBrace
  | Dot | Comma | Semicolon | Colon | ColonColon
  | Pipe | PipePipe | AmpAmp | Bang | Caret
  | Equal | NotEqual | Gt | GtEq | Lt | LtEq
  | Plus | Minus | Star | Slash | Percent
  deriving DecidableEq, Repr

/-- Modelled from the spec: `Token {kind, span}`. -/
structure Token where
  kind : TokenKind
  span : Span
  deriving DecidableEq, Repr

/-- Binary operator kinds (`BinOp` in `parser/ast.rs`, modelled from the
spec's grammar tiers). -/
inductive BinOp where
  | And | Or | Equal | NotEqual | Gt | GtEq | Lt | LtEq
  | Add | Sub | Mul | Div | Mod
  deriving DecidableEq, Repr

/-- Unary operator kinds (`UnOp` in `parser/ast.rs`, modelled from the spec:
prefix `! set val ^` and postfix dereference). -/
inductive UnOp where
  | Not | Set | Val | Ref | Deref
  deriving DecidableEq, Repr

/-- Literal payloads (`Literal` in `parser/ast.rs`, modelled from the spec;
the `f64` float payload is modelled opaquely by a `Nat`, no claim involves
float values). -/
inductive Literal where
  | Float (f : Nat)
  | Integer (i : Int)
  | String (s : Intern)
  deriving DecidableEq, Repr

mutual

/-- Modelled from the spec: `Expr {kind, span}`, the universal AST node
(`parser/ast.rs` is not in the provided sources). -/
inductive Expr where
  | mk (kind : ExprKind) (span : Span)

/-- Modelled from the spec: the `ExprKind` node vocabulary. -/
inductive ExprKind where
  | Object (definitions : List Def)
  | Scope (body : List Item)
  | Lambda (arg : Expr) (body : Expr)
  | SqLambda (arg : Expr) (expr : Expr)
  | BinOp (op : BinOp) (lhs : Expr) (rhs : Expr)
  | UnOp (op : UnOp) (arg : Expr)
  | Access (expr : Expr) (prop : Intern)
  | Case (cond : Expr) (on_true : Expr) (on_false : Expr)
  | Tuple (exprs : List Expr)
  | Apply (a : Expr) (b : Expr)
  | TypeAssertion (a : Expr) (b : Expr)
  | Variant (items : List VariantItem)
  | Ident (n : Intern)
  | Literal (lit : Literal)

/-- Modelled from the spec: `Def {name, value, span}`. -/
inductive Def where
  | mk (name : Intern) (value : Expr) (span : Span)

/-- Modelled from the spec: a `Scope` body item: expression statement,
definition, or the `Empty` sentinel. -/
inductive Item where
  | Expr (e : Expr)
  | Def (d : Def)
  | Empty

/-- Modelled from the spec: `VariantItem {name, value, span}`. -/
inductive VariantItem where
  | mk (name : Intern) (value : Option Expr) (span : Span)

end

def Expr.kind : Expr → ExprKind
  | .mk k _ => k

def Expr.span : Expr → Span
  | .mk _ s => s

def Def.name : Def → Intern
  | .mk n _ _ => n

def Def.value : Def → Expr
  | .mk _ v _ => v

def Def.span : Def → Span
  | .mk _ _ s => s

def VariantItem.name : VariantItem → Intern
  | .mk n _ _ => n

def VariantItem.value : VariantItem → Option Expr
  | .mk _ v _ => v

def VariantItem.span : VariantItem → Span
  | .mk _ _ s => s

/-- Modelled from the spec: a lexical error carrying an optional span
(`TokenizationError` in `tokenizer.rs`, not in the provided sources). -/
structure TokenizationError where
  span : Option Span
  deriving DecidableEq, Repr

/-- `ParseErrorKind` from `parser.rs`: an unexpected (or missing) token, or a
wrapped lexical error. -/
inductive ParseErrorKind where
  | Unexpected (t : Option Token)
  | Tokenization (e : TokenizationError)
  deriving DecidableEq, Repr

/-- `ParseError` from `parser.rs`. -/
structure ParseError where
  kind : ParseErrorKind
  span : Option Span
  deriving DecidableEq, Repr

/-- Outcome of a fueled parsing function: a real parse error (`perr`),
running out of fuel (`fuel`, a modelling artifact never hit on the concrete
inputs below), or a model of a Rust `unwrap` panic (`panicked`). -/
inductive PErr where
  | fuel
  | panicked
  | perr (e : ParseError)
  deriving DecidableEq, Repr

/-- A parsing step: consumes from the front of the token list. -/
abbrev P (α : Type) : Type := List Token → Except PErr (α × List Token)

/-! ## Token predicates (`parser/preds.rs`, modelled from the spec §4.1)

`tpred!(K)` matches a token of kind `K` and yields the token itself,
`bpred!(K)` matches and yields unit, `vpred!(pat => val, ...)` is a
first-match-wins kind-to-value map. Each concrete `vpred!` use in `parser.rs`
is modelled as its own named function below. -/

def tpred (k : TokenKind) (t : Token) : Option Token :=
  if t.kind = k then some t else none

def bpred (k : TokenKind) (t : Token) : Option Unit :=
  if t.kind = k then some () else none

/-- `to_bpred`: demote a token-valued predicate to a presence test. -/
def to_bpred (pred : Token → Option Token) (t : Token) : Option Unit :=
  (pred t).map (fun _ => ())

/-- `vpred!()` with no arms (the top-level `object_body` end predicate):
matches nothing. -/
def vpredNone (_ : Token) : Option Unit := none

/-- `vpred!(TokenKind::Name(n) => n)`. -/
def vpredName (t : Token) : Option Intern :=
  match t.kind with
  | .Name n => some n
  | _ => none

/-- `vpred!(:t: TokenKind::Semicolon => t.span.end)`. -/
def vpredSemiEnd (t : Token) : Option Nat :=
  match t.kind with
  | .Semicolon => some t.span.«end»
  | _ => none

/-- `vpred!(:t: TokenKind::Name(n) => (t.span, n))`. -/
def vpredNameSpan (t : Token) : Option (Span × Intern) :=
  match t.kind with
  | .Name n => some (t.span, n)
  | _ => none

/-- The `logical` operator map (`&&`, `||`). -/
def vpredLogical (t : Token) : Option BinOp :=
  match t.kind with
  | .AmpAmp => some .And
  | .PipePipe => some .Or
  | _ => none

/-- The `equal` operator map (`==`, `!=`). -/
def vpredEqual (t : Token) : Option BinOp :=
  match t.kind with
  | .Equal => some .Equal
  | .NotEqual => some .NotEqual
  | _ => none

/-- The `cmp` operator map (`>`, `>=`, `<`, `<=`). -/
def vpredCmp (t : Token) : Option BinOp :=
  match t.kind with
  | .Gt => some .Gt
  | .GtEq => some .GtEq
  | .Lt => some .Lt
  | .LtEq => some .LtEq
  | _ => none

/-- The `terms` operator map (`+`, `-`). -/
def vpredTerms (t : Token) : Option BinOp :=
  match t.kind with
  | .Plus => some .Add
  | .Minus => some .Sub
  | _ => none

/-- The `factors` operator map (`*`, `/`, `%`). -/
def vpredFactors (t : Token) : Option BinOp :=
  match t.kind with
  | .Star => some .Mul
  | .Slash => some .Div
  | .Percent => some .Mod
  | _ => none

/-- The prefix-operator map (`!`, `set`, `val`, `^`). -/
def vpredPrefixOp (t : Token) : Option (Span × UnOp) :=
  match t.kind with
  | .Bang => some (t.span, .Not)
  | .Set => some (t.span, .Set)
  | .Val => some (t.span, .Val)
  | .Caret => some (t.span, .Ref)
  | _ => none

/-- The atom map in `maybe_atom` (float/integer/string literals and names). -/
def vpredAtom (t : Token) : Option (Span × ExprKind) :=
  match t.kind with
  | .Float f => some (t.span, .Literal (.Float f))
  | .Integer i => some (t.span, .Literal (.Integer i))
  | .String s => some (t.span, .Literal (.String s))
  | .Name n => some (t.span, .Ident n)
  | _ => none

/-! ## Stream primitives (`parser.rs` lines 596-659) -/

/-- `eat`: consume the next token iff it matches; never errors. -/
def eat {α : Type} (pred : Token → Option α) (ts : List Token) :
    Option α × List Token :=
  match ts with
  | [] => (none, ts)
  | t :: rest =>
    match pred t with
    | some v => (some v, rest)
    | none => (none, t :: rest)

/-- `has_peek`: true iff a token exists and matches; never consumes. -/
def has_peek {α : Type} (pred : Token → Option α) (ts : List Token) : Bool :=
  match ts with
  | [] => false
  | t :: _ => (pred t).isSome

/-- `maybe_require`: the next token (if any) must match; a present
non-matching token is an `Unexpected` error carrying that token and its span;
stream exhaustion yields `none`. -/
def maybe_require {α : Type} (pred : Token → Option α) (ts : List Token) :
    Except PErr (Option α × List Token) :=
  match ts with
  | [] => .ok (none, ts)
  | t :: rest =>
    match pred t with
    | some v => .ok (some v, rest)
    | none =>
      .error (.perr { span := some t.span, kind := .Unexpected (some t) })

/-- `require`: like `maybe_require` but stream exhaustion is an `Unexpected`
error with no token and no span. -/
def require {α : Type} (pred : Token → Option α) (ts : List Token) :
    Except PErr (α × List Token) :=
  match maybe_require pred ts with
  | .ok (some v, ts1) => .ok (v, ts1)
  | .ok (none, _) => .error (.perr { kind := .Unexpected none, span := none })
  | .error e => .error e

/-! ## The parser (`parser.rs` lines 37-594)

Each `impl Parser` method becomes a component function over a record `Fns`
holding the next lower fuel level of every method; loops (`while` in the
source) become standalone fueled helpers. -/

/-- The record of all parsing methods at one fuel level. `defP` embeds the
method named `def` in the source, `prefixP` the method named `prefix`. -/
structure Fns where
  object_body : (Token → Option Unit) → P (List Def)
  defP : P Def
  def_block : P (Expr × Bool)
  block : P Expr
  scope : Nat → (Token → Option Token) → P Expr
  tuple : P Expr
  def_expr : P (Expr × Bool)
  expr : P Expr
  logical : P Expr
  equal : P Expr
  cmp : P Expr
  terms : P Expr
  factors : P Expr
  prefixP : P Expr
  suffix : P Expr
  maybe_atom : P (Option Expr)
  variant : P Expr

/-- The `while` loop of `object_body`: parse `def` items until the end
predicate matches or the stream ends. -/
def object_body_loop (defP : P Def) (end_pred : Token → Option Unit) :
    Nat → List Def → P (List Def)
  | 0, _, _ => .error .fuel
  | n + 1, defs, ts =>
    match ts.head? with
    | none => .ok (defs, ts)
    | some t =>
      match end_pred t with
      | some _ => .ok (defs, ts)
      | none =>
        match defP ts with
        | .error e => .error e
        | .ok (d, ts1) => object_body_loop defP end_pred n (defs ++ [d]) ts1

/-- `object_body` (lines 73-84). -/
def object_bodyF (p : Fns) (n : Nat) (end_pred : Token → Option Unit) :
    P (List Def) :=
  fun ts => object_body_loop p.defP end_pred n [] ts

/-- `def` (lines 86-104). -/
def defF (p : Fns) : P Def := fun ts =>
  match require (tpred TokenKind.Def) ts with
  | .error e => .error e
  | .ok (defTok, ts1) =>
    match require vpredName ts1 with
    | .error e => .error e
    | .ok (name, ts2) =>
      match p.def_block ts2 with
      | .error e => .error e
      | .ok ((value, needs_semi), ts3) =>
        match
          (if needs_semi then require vpredSemiEnd ts3
           else .ok (value.span.«end», ts3)) with
        | .error e => .error e
        | .ok (endPos, ts4) =>
          .ok (.mk name value { start := defTok.span.start, «end» := endPos },
               ts4)

/-- `def_block` (lines 106-131). -/
def def_blockF (p : Fns) : P (Expr × Bool) := fun ts =>
  match eat (tpred TokenKind.OpenBrace) ts with
  | (some opn, ts1) =>
    match p.scope opn.span.start (tpred TokenKind.CloseBrace) ts1 with
    | .error e => .error e
    | .ok (e, ts2) => .ok ((e, false), ts2)
  | (none, _) =>
    match eat (tpred TokenKind.DotOpenBrace) ts with
    | (some opn, ts1) =>
      match p.object_body (bpred TokenKind.CloseBrace) ts1 with
      | .error e => .error e
      | .ok (body_defs, ts2) =>
        match require (tpred TokenKind.CloseBrace) ts2 with
        | .error e => .error e
        | .ok (close, ts3) =>
          .ok ((.mk (.Object body_defs)
                  { start := opn.span.start, «end» := close.span.«end» },
                false),
               ts3)
    | (none, _) => p.def_expr ts

/-- `block` (lines 133-152). -/
def blockF (p : Fns) : P Expr := fun ts =>
  match eat (tpred TokenKind.OpenBrace) ts with
  | (some opn, ts1) =>
    p.scope opn.span.start (tpred TokenKind.CloseBrace) ts1
  | (none, _) =>
    match eat (tpred TokenKind.DotOpenBrace) ts with
    | (some opn, ts1) =>
      match p.object_body (bpred TokenKind.CloseBrace) ts1 with
      | .error e => .error e
      | .ok (body_defs, ts2) =>
        match require (tpred TokenKind.CloseBrace) ts2 with
        | .error e => .error e
        | .ok (close, ts3) =>
          .ok (.mk (.Object body_defs)
                 { start := opn.span.start, «end» := close.span.«end» },
               ts3)
    | (none, _) => p.expr ts

/-- The `while` loop of `scope` (lines 188-205): alternate `def` items and
`;`-terminated expression statements, tracking the `semi` flag; the loop
breaks with `semi = false` when an expression statement is not followed by
`;`. -/
def scope_loop (tupleP : P Expr) (defP : P Def)
    (end_pred : Token → Option Token) :
    Nat → List Item → Bool → P (List Item × Bool)
  | 0, _, _, _ => .error .fuel
  | n + 1, body, semi, ts =>
    match ts.head? with
    | none => .ok ((body, semi), ts)
    | some t =>
      match end_pred t with
      | some _ => .ok ((body, semi), ts)
      | none =>
        if (to_bpred end_pred t).isSome then .ok ((body, semi), ts)
        else if (bpred TokenKind.Def t).isSome then
          match defP ts with
          | .error e => .error e
          | .ok (d, ts1) =>
            scope_loop tupleP defP end_pred n (body ++ [.Def d]) semi ts1
        else
          match tupleP ts with
          | .error e => .error e
          | .ok (e, ts1) =>
            match eat (bpred TokenKind.Semicolon) ts1 with
            | (none, ts2) => .ok ((body ++ [.Expr e], false), ts2)
            | (some _, ts2) =>
              scope_loop tupleP defP end_pred n (body ++ [.Expr e]) true ts2

/-- The tail of `scope` (lines 207-221): append the `Empty` sentinel when the
`semi` flag is set, require the end token, build the `Scope` node. -/
def scope_finish (end_pred : Token → Option Token) (start : Nat)
    (body : List Item) (semi : Bool) : P Expr := fun ts =>
  let body1 := if semi then body ++ [Item.Empty] else body
  match require end_pred ts with
  | .error e => .error e
  | .ok (close, ts1) =>
    .ok (.mk (.Scope body1) { start := start, «end» := close.span.«end» }, ts1)

/-- `scope` (lines 154-222). -/
def scopeF (p : Fns) (n : Nat) (start : Nat)
    (end_pred : Token → Option Token) : P Expr := fun ts =>
  match eat end_pred ts with
  | (some close, ts1) =>
    .ok (.mk (.Tuple []) { start := start, «end» := close.span.«end» }, ts1)
  | (none, _) =>
    if (has_peek (bpred TokenKind.Def) ts : Bool) then
      match scope_loop p.tuple p.defP end_pred n [] true ts with
      | .error e => .error e
      | .ok ((body, semi), ts1) => scope_finish end_pred start body semi ts1
    else
      match p.tuple ts with
      | .error e => .error e
      | .ok (first, ts1) =>
        match eat end_pred ts1 with
        | (some _, ts2) => .ok (first, ts2)
        | (none, _) =>
          match require (bpred TokenKind.Semicolon) ts1 with
          | .error e => .error e
          | .ok (_, ts2) =>
            match scope_loop p.tuple p.defP end_pred n [.Expr first] true ts2
              with
            | .error e => .error e
            | .ok ((body, semi), ts3) =>
              scope_finish end_pred start body semi ts3

/-- The `while` loop of `tuple` (lines 230-234): keep eating `,` and parsing
`block` items. -/
def tuple_loop (blockP : P Expr) : Nat → List Expr → P (List Expr)
  | 0, _, _ => .error .fuel
  | n + 1, items, ts =>
    match eat (bpred TokenKind.Comma) ts with
    | (none, ts1) => .ok (items, ts1)
    | (some _, ts1) =>
      match blockP ts1 with
      | .error e => .error e
      | .ok (item, ts2) => tuple_loop blockP n (items ++ [item]) ts2

/-- `tuple` (lines 224-250); the `first().unwrap()`/`last().unwrap()` pair is
modelled by matching on `head?`/`getLast?` with `PErr.panicked` on the
(unreachable) empty case. -/
def tupleF (p : Fns) (n : Nat) : P Expr := fun ts =>
  match p.block ts with
  | .error e => .error e
  | .ok (first, ts1) =>
    if (has_peek (bpred TokenKind.Comma) ts1 : Bool) then
      match tuple_loop p.block n [first] ts1 with
      | .error e => .error e
      | .ok (items, ts2) =>
        match items.head?, items.getLast? with
        | some f, some l =>
          .ok (.mk (.Tuple items)
                 { start := f.span.start, «end» := l.span.«end» },
               ts2)
        | _, _ => .error .panicked
    else .ok (first, ts1)

/-- `def_expr` (lines 252-319): lambda sugar (`{...}` or `.{...}`) may apply,
and a following `::` may additionally apply on top of it. -/
def def_exprF (p : Fns) : P (Expr × Bool) := fun ts =>
  match p.logical ts with
  | .error e => .error e
  | .ok (a0, ts1) =>
    let sugared : Except PErr ((Expr × Bool) × List Token) :=
      match eat (tpred TokenKind.OpenBrace) ts1 with
      | (some opn, ts2) =>
        match p.scope opn.span.start (tpred TokenKind.CloseBrace) ts2 with
        | .error e => .error e
        | .ok (body, ts3) =>
          .ok ((.mk (.Lambda a0 body)
                  { start := a0.span.start, «end» := body.span.«end» },
                false),
               ts3)
      | (none, _) =>
        match eat (tpred TokenKind.DotOpenBrace) ts1 with
        | (some opn, ts2) =>
          match p.object_body (bpred TokenKind.CloseBrace) ts2 with
          | .error e => .error e
          | .ok (body_defs, ts3) =>
            match require (tpred TokenKind.CloseBrace) ts3 with
            | .error e => .error e
            | .ok (close, ts4) =>
              let body : Expr :=
                .mk (.Object body_defs)
                  { start := opn.span.start, «end» := close.span.«end» }
              .ok ((.mk (.Lambda a0 body)
                      { start := a0.span.start, «end» := body.span.«end» },
                    false),
                   ts4)
        | (none, _) => .ok ((a0, true), ts1)
    match sugared with
    | .error e => .error e
    | .ok ((a, flag), ts2) =>
      match eat (bpred TokenKind.ColonColon) ts2 with
      | (none, ts3) => .ok ((a, flag), ts3)
      | (some _, ts3) =>
        match p.logical ts3 with
        | .error e => .error e
        | .ok (b, ts4) =>
          .ok ((.mk (.TypeAssertion a b)
                  { start := a.span.start, «end» := b.span.«end» },
                true),
               ts4)

/-- `expr` (lines 321-379): `{...}` lambda sugar may apply, then `::` and
`.{...}` lambda sugar are mutually exclusive alternatives with `::` checked
first. -/
def exprF (p : Fns) : P Expr := fun ts =>
  match p.logical ts with
  | .error e => .error e
  | .ok (a0, ts1) =>
    let braced : Except PErr (Expr × List Token) :=
      match eat (tpred TokenKind.OpenBrace) ts1 with
      | (some opn, ts2) =>
        match p.scope opn.span.start (tpred TokenKind.CloseBrace) ts2 with
        | .error e => .error e
        | .ok (body, ts3) =>
          .ok (.mk (.Lambda a0 body)
                 { start := a0.span.start, «end» := body.span.«end» },
               ts3)
      | (none, _) => .ok (a0, ts1)
    match braced with
    | .error e => .error e
    | .ok (a, ts2) =>
      match eat (bpred TokenKind.ColonColon) ts2 with
      | (some _, ts3) =>
        match p.logical ts3 with
        | .error e => .error e
        | .ok (b, ts4) =>
          .ok (.mk (.TypeAssertion a b)
                 { start := a.span.start, «end» := b.span.«end» },
               ts4)
      | (none, _) =>
        match eat (tpred TokenKind.DotOpenBrace) ts2 with
        | (some opn, ts3) =>
          match p.object_body (bpred TokenKind.CloseBrace) ts3 with
          | .error e => .error e
          | .ok (body_defs, ts4) =>
            match require (tpred TokenKind.CloseBrace) ts4 with
            | .error e => .error e
            | .ok (close, ts5) =>
              let body : Expr :=
                .mk (.Object body_defs)
                  { start := opn.span.start, «end» := close.span.«end» }
              .ok (.mk (.Lambda a body)
                     { start := a.span.start, «end» := body.span.«end» },
                   ts5)
        | (none, ts3) => .ok (a, ts3)

/-- The `while` loop of `bin_op` (lines 575-591): left-fold further operands
onto `a`; note the constructed span ends at the left operand's end. -/
def bin_op_loop (next : P Expr) (pred : Token → Option BinOp) :
    Nat → Expr → P Expr
  | 0, _, _ => .error .fuel
  | n + 1, a, ts =>
    match eat pred ts with
    | (none, ts1) => .ok (a, ts1)
    | (some op, ts1) =>
      match next ts1 with
      | .error e => .error e
      | .ok (b, ts2) =>
        bin_op_loop next pred n
          (.mk (.BinOp op a b) { start := a.span.start, «end» := a.span.«end» })
          ts2

/-- `bin_op` (lines 568-594). -/
def bin_op (next : P Expr) (pred : Token → Option BinOp) (n : Nat) : P Expr :=
  fun ts =>
    match next ts with
    | .error e => .error e
    | .ok (a, ts1) => bin_op_loop next pred n a ts1

/-- `prefix` (lines 434-458): right-recursive chain of prefix operators over
`suffix`. -/
def prefixF (p : Fns) : Nat → P Expr
  | 0, _ => .error .fuel
  | n + 1, ts =>
    match eat vpredPrefixOp ts with
    | (some (op_span, op), ts1) =>
      match prefixF p n ts1 with
      | .error e => .error e
      | .ok (a, ts2) =>
        .ok (.mk (.UnOp op a) { start := op_span.start, «end» := a.span.«end» },
             ts2)
    | (none, _) => p.suffix ts

/-- The `loop` of `suffix` (lines 468-512): postfix `^`, `.name` access, or
juxtaposition application, greedily, left-associatively. -/
def suffix_loop (maybe_atomP : P (Option Expr)) : Nat → Expr → P Expr
  | 0, _, _ => .error .fuel
  | n + 1, a, ts =>
    match eat (tpred TokenKind.Caret) ts with
    | (some caret, ts1) =>
      suffix_loop maybe_atomP n
        (.mk (.UnOp .Deref a) { start := a.span.start, «end» := caret.span.«end» })
        ts1
    | (none, _) =>
      match eat (tpred TokenKind.Dot) ts with
      | (some _, ts1) =>
        match require vpredNameSpan ts1 with
        | .error e => .error e
        | .ok ((prop_span, prop), ts2) =>
          suffix_loop maybe_atomP n
            (.mk (.Access a prop)
               { start := a.span.start, «end» := prop_span.«end» })
            ts2
      | (none, _) =>
        match maybe_atomP ts with
        | .error e => .error e
        | .ok (some arg, ts1) =>
          suffix_loop maybe_atomP n
            (.mk (.Apply a arg)
               { start := a.span.start, «end» := arg.span.«end» })
            ts1
        | .ok (none, ts1) => .ok (a, ts1)

/-- `suffix` (lines 460-515); a missing first atom is an `Unexpected` error
recording the peeked token but no span. -/
def suffixF (p : Fns) (n : Nat) : P Expr := fun ts =>
  match p.maybe_atom ts with
  | .error e => .error e
  | .ok (none, ts1) =>
    .error (.perr { kind := .Unexpected ts1.head?, span := none })
  | .ok (some a, ts1) => suffix_loop p.maybe_atom n a ts1

/-- `maybe_atom` (lines 517-534). -/
def maybe_atomF (p : Fns) : P (Option Expr) := fun ts =>
  match eat (tpred TokenKind.OpenParen) ts with
  | (some opn, ts1) =>
    match p.scope opn.span.start (tpred TokenKind.CloseParen) ts1 with
    | .error e => .error e
    | .ok (e, ts2) => .ok (some e, ts2)
  | (none, _) =>
    if (has_peek (bpred TokenKind.Pipe) ts : Bool) then
      match p.variant ts with
      | .error e => .error e
      | .ok (e, ts1) => .ok (some e, ts1)
    else
      match eat vpredAtom ts with
      | (some (span, kind), ts1) => .ok (some (.mk kind span), ts1)
      | (none, ts1) => .ok (none, ts1)

/-- The `while` loop of `variant` (lines 538-557): each iteration eats a `|`,
requires a name, and optionally parses `: expr`. -/
def variant_loop (exprP : P Expr) : Nat → List VariantItem → P (List VariantItem)
  | 0, _, _ => .error .fuel
  | n + 1, items, ts =>
    match eat (tpred TokenKind.Pipe) ts with
    | (none, ts1) => .ok (items, ts1)
    | (some pipe, ts1) =>
      match require vpredNameSpan ts1 with
      | .error e => .error e
      | .ok ((name_span, name), ts2) =>
        match eat (bpred TokenKind.Colon) ts2 with
        | (some _, ts3) =>
          match exprP ts3 with
          | .error e => .error e
          | .ok (e, ts4) =>
            variant_loop exprP n
              (items ++
                [.mk name (some e)
                   { start := pipe.span.start, «end» := e.span.«end» }])
              ts4
        | (none, ts3) =>
          variant_loop exprP n
            (items ++
              [.mk name none
                 { start := pipe.span.start, «end» := name_span.«end» }])
            ts3

/-- `variant` (lines 536-566); the `first().unwrap()`/`last().unwrap()` pair
is modelled by `head?`/`getLast?` with `PErr.panicked` on the empty case. -/
def variantF (p : Fns) (n : Nat) : P Expr := fun ts =>
  match variant_loop p.expr n [] ts with
  | .error e => .error e
  | .ok (items, ts1) =>
    match items.head?, items.getLast? with
    | some f, some l =>
      .ok (.mk (.Variant items)
             { start := f.span.start, «end» := l.span.«end» },
           ts1)
    | _, _ => .error .panicked

/-- Fuel level zero: every method reports fuel exhaustion. -/
def failFns : Fns where
  object_body := fun _ _ => .error .fuel
  defP := fun _ => .error .fuel
  def_block := fun _ => .error .fuel
  block := fun _ => .error .fuel
  scope := fun _ _ _ => .error .fuel
  tuple := fun _ => .error .fuel
  def_expr := fun _ => .error .fuel
  expr := fun _ => .error .fuel
  logical := fun _ => .error .fuel
  equal := fun _ => .error .fuel
  cmp := fun _ => .error .fuel
  terms := fun _ => .error .fuel
  factors := fun _ => .error .fuel
  prefixP := fun _ => .error .fuel
  suffix := fun _ => .error .fuel
  maybe_atom := fun _ => .error .fuel
  variant := fun _ => .error .fuel

/-- One fuel level of every method on top of the previous level `p`. -/
def mkFns (p : Fns) (n : Nat) : Fns where
  object_body := object_bodyF p n
  defP := defF p
  def_block := def_blockF p
  block := blockF p
  scope := scopeF p n
  tuple := tupleF p n
  def_expr := def_exprF p
  expr := exprF p
  logical := bin_op p.equal vpredLogical n
  equal := bin_op p.cmp vpredEqual n
  cmp := bin_op p.terms vpredCmp n
  terms := bin_op p.factors vpredTerms n
  factors := bin_op p.prefixP vpredFactors n
  prefixP := prefixF p n
  suffix := suffixF p n
  maybe_atom := maybe_atomF p
  variant := variantF p n

/-- The whole parser at a given fuel level. -/
def parseFns : Nat → Fns
  | 0 => failFns
  | n + 1 => mkFns (parseFns n) n

/-- `parse` (lines 50-71): the top-level entry point, an implicit object
body running to the end of the stream. -/
def parse (fuel : Nat) : P Expr := fun ts =>
  match (parseFns fuel).object_body vpredNone ts with
  | .error e => .error e
  | .ok (definitions, ts1) =>
    match definitions.head?, definitions.getLast? with
    | some first, some last =>
      .ok (.mk (.Object definitions)
             { start := first.span.start, «end» := last.span.«end» },
           ts1)
    | _, _ =>
      .ok (.mk (.Object []) { start := 0, «end» := 0 }, ts1)

/-! ## Concrete inputs

Token lists for the spec's concrete examples.  The string-to-token mapping is
modelled from the spec (maximal-munch lexing, byte spans); the parser only
sees the token list. -/

def mkSpan (a b : Nat) : Span := { start := a, «end» := b }

def tok (k : TokenKind) (a b : Nat) : Token := { kind := k, span := mkSpan a b }

/-- Tokens of `"1 + 2 * 3"`. -/
def toksArith : List Token :=
  [tok (.Integer 1) 0 1, tok .Plus 2 3, tok (.Integer 2) 4 5, tok .Star 6 7,
   tok (.Integer 3) 8 9]

/-- Expected tree for `"1 + 2 * 3"`: `Add(1, Mul(2, 3))` (with the
truncated `bin_op` spans the source produces). -/
def astArith : Expr :=
  .mk (.BinOp .Add (.mk (.Literal (.Integer 1)) (mkSpan 0 1))
        (.mk (.BinOp .Mul (.mk (.Literal (.Integer 2)) (mkSpan 4 5))
               (.mk (.Literal (.Integer 3)) (mkSpan 8 9))) (mkSpan 4 5)))
    (mkSpan 0 1)

/-- Tokens of `"a - b - c"`. -/
def toksSub : List Token :=
  [tok (.Name "a") 0 1, tok .Minus 2 3, tok (.Name "b") 4 5, tok .Minus 6 7,
   tok (.Name "c") 8 9]

/-- Expected tree for `"a - b - c"`: `Sub(Sub(a, b), c)`. -/
def astSub : Expr :=
  .mk (.BinOp .Sub
        (.mk (.BinOp .Sub (.mk (.Ident "a") (mkSpan 0 1))
               (.mk (.Ident "b") (mkSpan 4 5))) (mkSpan 0 1))
        (.mk (.Ident "c") (mkSpan 8 9)))
    (mkSpan 0 1)

/-- Tokens of `"1 + 2"`, split as a first operand and the loop's tail. -/
def oneLit : Expr := .mk (.Literal (.Integer 1)) (mkSpan 0 1)

/-- Expected tree for `"1 + 2"`: note the span ends at offset 1, the left
operand's end, not 5. -/
def astAdd : Expr :=
  .mk (.BinOp .Add oneLit (.mk (.Literal (.Integer 2)) (mkSpan 4 5)))
    (mkSpan 0 1)

/-- Tokens of `"(a; b)"`. -/
def toksScope1 : List Token :=
  [tok .OpenParen 0 1, tok (.Name "a") 1 2, tok .Semicolon 2 3,
   tok (.Name "b") 4 5, tok .CloseParen 5 6]

/-- Expected tree for `"(a; b)"`: no trailing `Empty`. -/
def astScope1 : Expr :=
  .mk (.Scope [.Expr (.mk (.Ident "a") (mkSpan 1 2)),
               .Expr (.mk (.Ident "b") (mkSpan 4 5))]) (mkSpan 0 6)

/-- Tokens of `"(a; b;)"`. -/
def toksScope2 : List Token :=
  [tok .OpenParen 0 1, tok (.Name "a") 1 2, tok .Semicolon 2 3,
   tok (.Name "b") 4 5, tok .Semicolon 5 6, tok .CloseParen 6 7]

/-- Expected tree for `"(a; b;)"`: trailing `Empty` appended. -/
def astScope2 : Expr :=
  .mk (.Scope [.Expr (.mk (.Ident "a") (mkSpan 1 2)),
               .Expr (.mk (.Ident "b") (mkSpan 4 5)), .Empty]) (mkSpan 0 7)

/-- Tokens of `"x .{ } :: T"`. -/
def toksSugar : List Token :=
  [tok (.Name "x") 0 1, tok .DotOpenBrace 2 4, tok .CloseBrace 5 6,
   tok .ColonColon 7 9, tok (.Name "T") 10 11]

/-- The lambda produced by the `.{...}` sugar on `"x .{ }"`. -/
def astSugarLam : Expr :=
  .mk (.Lambda (.mk (.Ident "x") (mkSpan 0 1)) (.mk (.Object []) (mkSpan 2 6)))
    (mkSpan 0 6)

/-- Tokens of `"x :: T .{ }"`. -/
def toksSugar2 : List Token :=
  [tok (.Name "x") 0 1, tok .ColonColon 2 4, tok (.Name "T") 5 6,
   tok .DotOpenBrace 7 9, tok .CloseBrace 10 11]

/-- Tokens of `"def f () ;"` (a definition whose value is the empty scope). -/
def toksDefUnit : List Token :=
  [tok .Def 0 3, tok (.Name "f") 4 5, tok .OpenParen 6 7, tok .CloseParen 7 8,
   tok .Semicolon 8 9]

/-- Expected tree for `"def f () ;"`: the value is a `Tuple` with zero
elements. -/
def astDefUnit : Expr :=
  .mk (.Object [.mk "f" (.mk (.Tuple []) (mkSpan 6 8)) (mkSpan 0 9)])
    (mkSpan 0 9)

/-- Tokens of `"def f x { x }"`. -/
def toksDefLam : List Token :=
  [tok .Def 0 3, tok (.Name "f") 4 5, tok (.Name "x") 6 7, tok .OpenBrace 8 9,
   tok (.Name "x") 10 11, tok .CloseBrace 12 13]

/-- Expected tree for `"def f x { x }"`: a block-valued definition needing no
trailing semicolon; the definition's span ends at the value's own end. -/
def astDefLam : Expr :=
  .mk (.Object [.mk "f"
        (.mk (.Lambda (.mk (.Ident "x") (mkSpan 6 7))
               (.mk (.Ident "x") (mkSpan 10 11))) (mkSpan 6 11))
        (mkSpan 0 11)])
    (mkSpan 0 11)

/-- Tokens of `"def a x;"` (an expression-valued definition). -/
def toksDefSemi : List Token :=
  [tok .Def 0 3, tok (.Name "a") 4 5, tok (.Name "x") 6 7, tok .Semicolon 7 8]

/-- Tokens of `"def a x"` (same, with the required semicolon missing). -/
def toksDefNoSemi : List Token :=
  [tok .Def 0 3, tok (.Name "a") 4 5, tok (.Name "x") 6 7]

/-- Tokens of `"def a = 1"` (modelled from the spec: `=` lexes as the
`Equal` token, which cannot begin an expression). -/
def toksDefEq : List Token :=
  [tok .Def 0 3, tok (.Name "a") 4 5, tok .Equal 6 7, tok (.Integer 1) 8 9]

/-- Tokens of `"def a = 1;"`. -/
def toksDefEqSemi : List Token := toksDefEq ++ [tok .Semicolon 9 10]

/-- Tokens of `"|Ok: 1 |Err"` following the leading `|`. -/
def varRest : List Token :=
  [tok (.Name "Ok") 1 3, tok .Colon 3 4, tok (.Integer 1) 5 6, tok .Pipe 7 8,
   tok (.Name "Err") 8 11]

/-- The tree `variant` produces for `"|Ok: 1 |Err"`: the value expression
after `:` greedily absorbs the second variant as an application argument. -/
def astVar : Expr :=
  .mk (.Variant [.mk "Ok"
        (some (.mk (.Apply (.mk (.Literal (.Integer 1)) (mkSpan 5 6))
                 (.mk (.Variant [.mk "Err" none (mkSpan 7 11)]) (mkSpan 7 11)))
               (mkSpan 5 11)))
        (mkSpan 0 11)])
    (mkSpan 0 11)

/-- Tokens of `"( def f {} )"` (a scope whose items are all definitions). -/
def toksDefScope : List Token :=
  [tok .OpenParen 0 1, tok .Def 2 5, tok (.Name "f") 6 7, tok .OpenBrace 8 9,
   tok .CloseBrace 9 10, tok .CloseParen 11 12]

/-- Expected tree for `"( def f {} )"`: the body ends with the `Empty`
sentinel since no expression statement cleared the semicolon flag. -/
def astDefScope : Expr :=
  .mk (.Scope [.Def (.mk "f" (.mk (.Tuple []) (mkSpan 8 10)) (mkSpan 2 10)),
               .Empty]) (mkSpan 0 12)

/-! ## The AST size utility (`parser/utils.rs`)

The three `std::mem::size_of` record constants are layout-dependent, so they
are passed in as parameters; no theorem below depends on their values.  The
per-item bookkeeping constant `8` of the `Scope` branch is literal in the
source. -/

/-- The `std::mem::size_of` constants of `Expr`, `Def` and `VariantItem`. -/
structure MemSize where
  exprSize : Nat
  defSize : Nat
  varitSize : Nat
  deriving DecidableEq, Repr

mutual

/-- `ast_size` (`utils.rs` lines 3-35). -/
def ast_size (m : MemSize) : Expr → Nat
  | .mk (.Object defs) _ => m.exprSize + def_sizes m defs
  | .mk (.Scope body) _ => m.exprSize + item_sizes m body
  | .mk (.Lambda arg body) _ => m.exprSize + (ast_size m arg + ast_size m body)
  | .mk (.SqLambda arg e) _ => m.exprSize + (ast_size m e + ast_size m arg)
  | .mk (.BinOp _ lhs rhs) _ => m.exprSize + (ast_size m lhs + ast_size m rhs)
  | .mk (.UnOp _ arg) _ => m.exprSize + ast_size m arg
  | .mk (.Access e prop) _ => m.exprSize + (ast_size m e + prop.len)
  | .mk (.Case c t f) _ =>
    m.exprSize + (ast_size m c + ast_size m t + ast_size m f)
  | .mk (.Tuple es) _ => m.exprSize + ast_sizes m es
  | .mk (.Apply a b) _ => m.exprSize + (ast_size m a + ast_size m b)
  | .mk (.TypeAssertion a b) _ => m.exprSize + (ast_size m a + ast_size m b)
  | .mk (.Variant its) _ => m.exprSize + varit_sizes m its
  | .mk (.Ident i) _ => m.exprSize + i.len
  | .mk (.Literal (.String i)) _ => m.exprSize + i.len
  | .mk (.Literal (.Float _)) _ => m.exprSize + 0
  | .mk (.Literal (.Integer _)) _ => m.exprSize + 0

/-- The per-item contribution of the `Scope` branch of `ast_size`. -/
def item_size (m : MemSize) : Item → Nat
  | .Expr e => ast_size m e + 8
  | .Def d => def_size m d + 8
  | .Empty => 8

/-- `def_size` (`utils.rs` lines 37-39). -/
def def_size (m : MemSize) : Def → Nat
  | .mk name value _ => m.defSize + name.len + ast_size m value

/-- `varit_size` (`utils.rs` lines 41-43): note the item's `name` length is
not added. -/
def varit_size (m : MemSize) : VariantItem → Nat
  | .mk _ value _ =>
    m.varitSize + (match value with | some e => ast_size m e | none => 0)

/-- `definitions.iter().map(def_size).sum()`. -/
def def_sizes (m : MemSize) : List Def → Nat
  | [] => 0
  | d :: ds => def_size m d + def_sizes m ds

/-- `body.iter().map(|it| ...).sum()` of the `Scope` branch. -/
def item_sizes (m : MemSize) : List Item → Nat
  | [] => 0
  | it :: its => item_size m it + item_sizes m its

/-- `exprs.iter().map(ast_size).sum()`. -/
def ast_sizes (m : MemSize) : List Expr → Nat
  | [] => 0
  | e :: es => ast_size m e + ast_sizes m es

/-- `its.iter().map(varit_size).sum()`. -/
def varit_sizes (m : MemSize) : List VariantItem → Nat
  | [] => 0
  | v :: vs => varit_size m v + varit_sizes m vs

end

/-! ## AST shape predicates and the growth relation -/

/-- A sum of the AST node sorts (and their list containers), used to state
tree-wide predicates and relations with a single inductive. -/
inductive Node where
  | e (x : Expr)
  | d (x : Def)
  | i (x : Item)
  | v (x : VariantItem)
  | es (xs : List Expr)
  | ds (xs : List Def)
  | is (xs : List Item)
  | vs (xs : List VariantItem)

/-- The size-utility footprint of a `Node`. -/
def nodeSize (m : MemSize) : Node → Nat
  | .e x => ast_size m x
  | .d x => def_size m x
  | .i x => item_size m x
  | .v x => varit_size m x
  | .es xs => ast_sizes m xs
  | .ds xs => def_sizes m xs
  | .is xs => item_sizes m xs
  | .vs xs => varit_sizes m xs

/-- `Empty` occurs in a scope body at most once and only as its last
element. -/
def emptyOnlyLast : List Item → Prop
  | [] => True
  | .Empty :: rest => rest = []
  | .Expr _ :: rest => emptyOnlyLast rest
  | .Def _ :: rest => emptyOnlyLast rest

/-- Every `Tuple` node of the tree has an element count different from one:
zero (the degenerate empty scope) or at least two. -/
inductive TupleOK : Node → Prop where
  | object {ds sp} :
      (∀ d ∈ ds, TupleOK (.d d)) → TupleOK (.e (.mk (.Object ds) sp))
  | scope {its sp} :
      (∀ it ∈ its, TupleOK (.i it)) → TupleOK (.e (.mk (.Scope its) sp))
  | lambda {a b sp} :
      TupleOK (.e a) → TupleOK (.e b) → TupleOK (.e (.mk (.Lambda a b) sp))
  | sqLambda {a b sp} :
      TupleOK (.e a) → TupleOK (.e b) → TupleOK (.e (.mk (.SqLambda a b) sp))
  | binOp {op l r sp} :
      TupleOK (.e l) → TupleOK (.e r) → TupleOK (.e (.mk (.BinOp op l r) sp))
  | unOp {op a sp} : TupleOK (.e a) → TupleOK (.e (.mk (.UnOp op a) sp))
  | access {a prop sp} :
      TupleOK (.e a) → TupleOK (.e (.mk (.Access a prop) sp))
  | case {c t f sp} :
      TupleOK (.e c) → TupleOK (.e t) → TupleOK (.e f) →
      TupleOK (.e (.mk (.Case c t f) sp))
  | tuple {es sp} :
      es.length ≠ 1 → (∀ x ∈ es, TupleOK (.e x)) →
      TupleOK (.e (.mk (.Tuple es) sp))
  | apply {a b sp} :
      TupleOK (.e a) → TupleOK (.e b) → TupleOK (.e (.mk (.Apply a b) sp))
  | typeAssertion {a b sp} :
      TupleOK (.e a) → TupleOK (.e b) →
      TupleOK (.e (.mk (.TypeAssertion a b) sp))
  | variant {its sp} :
      (∀ v ∈ its, TupleOK (.v v)) → TupleOK (.e (.mk (.Variant its) sp))
  | ident {n sp} : TupleOK (.e (.mk (.Ident n) sp))
  | literal {l sp} : TupleOK (.e (.mk (.Literal l) sp))
  | defn {n v sp} : TupleOK (.e v) → TupleOK (.d (.mk n v sp))
  | itemExpr {e} : TupleOK (.e e) → TupleOK (.i (.Expr e))
  | itemDef {d} : TupleOK (.d d) → TupleOK (.i (.Def d))
  | itemEmpty : TupleOK (.i .Empty)
  | varitNone {n sp} : TupleOK (.v (.mk n none sp))
  | varitSome {n v sp} : TupleOK (.e v) → TupleOK (.v (.mk n (some v) sp))

/-- Every `Scope` node of the tree has the `Empty` sentinel at most once and
only as the last body item. -/
inductive EmptyOK : Node → Prop where
  | object {ds sp} :
      (∀ d ∈ ds, EmptyOK (.d d)) → EmptyOK (.e (.mk (.Object ds) sp))
  | scope {its sp} :
      emptyOnlyLast its → (∀ it ∈ its, EmptyOK (.i it)) →
      EmptyOK (.e (.mk (.Scope its) sp))
  | lambda {a b sp} :
      EmptyOK (.e a) → EmptyOK (.e b) → EmptyOK (.e (.mk (.Lambda a b) sp))
  | sqLambda {a b sp} :
      EmptyOK (.e a) → EmptyOK (.e b) → EmptyOK (.e (.mk (.SqLambda a b) sp))
  | binOp {op l r sp} :
      EmptyOK (.e l) → EmptyOK (.e r) → EmptyOK (.e (.mk (.BinOp op l r) sp))
  | unOp {op a sp} : EmptyOK (.e a) → EmptyOK (.e (.mk (.UnOp op a) sp))
  | access {a prop sp} :
      EmptyOK (.e a) → EmptyOK (.e (.mk (.Access a prop) sp))
  | case {c t f sp} :
      EmptyOK (.e c) → EmptyOK (.e t) → EmptyOK (.e f) →
      EmptyOK (.e (.mk (.Case c t f) sp))
  | tuple {es sp} :
      (∀ x ∈ es, EmptyOK (.e x)) → EmptyOK (.e (.mk (.Tuple es) sp))
  | apply {a b sp} :
      EmptyOK (.e a) → EmptyOK (.e b) → EmptyOK (.e (.mk (.Apply a b) sp))
  | typeAssertion {a b sp} :
      EmptyOK (.e a) → EmptyOK (.e b) →
      EmptyOK (.e (.mk (.TypeAssertion a b) sp))
  | variant {its sp} :
      (∀ v ∈ its, EmptyOK (.v v)) → EmptyOK (.e (.mk (.Variant its) sp))
  | ident {n sp} : EmptyOK (.e (.mk (.Ident n) sp))
  | literal {l sp} : EmptyOK (.e (.mk (.Literal l) sp))
  | defn {n v sp} : EmptyOK (.e v) → EmptyOK (.d (.mk n v sp))
  | itemExpr {e} : EmptyOK (.e e) → EmptyOK (.i (.Expr e))
  | itemDef {d} : EmptyOK (.d d) → EmptyOK (.i (.Def d))
  | itemEmpty : EmptyOK (.i .Empty)
  | varitNone {n sp} : EmptyOK (.v (.mk n none sp))
  | varitSome {n v sp} : EmptyOK (.e v) → EmptyOK (.v (.mk n (some v) sp))

/-- The conjunction of both structural invariants. -/
def OK (x : Node) : Prop := TupleOK x ∧ EmptyOK x

/-- One growth step on a tree: exactly one piece of size-counted interned
text gets strictly longer, or one child is replaced by a grown child, with
everything else (spans included) unchanged.  Variant item names are absent on
purpose: `varit_size` does not count them (see `C9`). -/
inductive Grows : Node → Node → Prop where
  | object {ds ds' sp} :
      Grows (.ds ds) (.ds ds') →
      Grows (.e (.mk (.Object ds) sp)) (.e (.mk (.Object ds') sp))
  | scope {its its' sp} :
      Grows (.is its) (.is its') →
      Grows (.e (.mk (.Scope its) sp)) (.e (.mk (.Scope its') sp))
  | lambda_arg {a a' b sp} :
      Grows (.e a) (.e a') →
      Grows (.e (.mk (.Lambda a b) sp)) (.e (.mk (.Lambda a' b) sp))
  | lambda_body {a b b' sp} :
      Grows (.e b) (.e b') →
      Grows (.e (.mk (.Lambda a b) sp)) (.e (.mk (.Lambda a b') sp))
  | sq_arg {a a' b sp} :
      Grows (.e a) (.e a') →
      Grows (.e (.mk (.SqLambda a b) sp)) (.e (.mk (.SqLambda a' b) sp))
  | sq_expr {a b b' sp} :
      Grows (.e b) (.e b') →
      Grows (.e (.mk (.SqLambda a b) sp)) (.e (.mk (.SqLambda a b') sp))
  | bin_lhs {op l l' r sp} :
      Grows (.e l) (.e l') →
      Grows (.e (.mk (.BinOp op l r) sp)) (.e (.mk (.BinOp op l' r) sp))
  | bin_rhs {op l r r' sp} :
      Grows (.e r) (.e r') →
      Grows (.e (.mk (.BinOp op l r) sp)) (.e (.mk (.BinOp op l r') sp))
  | un_arg {op a a' sp} :
      Grows (.e a) (.e a') →
      Grows (.e (.mk (.UnOp op a) sp)) (.e (.mk (.UnOp op a') sp))
  | access_expr {a a' prop sp} :
      Grows (.e a) (.e a') →
      Grows (.e (.mk (.Access a prop) sp)) (.e (.mk (.Access a' prop) sp))
  | access_prop {a prop prop' sp} :
      Intern.len prop < Intern.len prop' →
      Grows (.e (.mk (.Access a prop) sp)) (.e (.mk (.Access a prop') sp))
  | case_cond {c c' t f sp} :
      Grows (.e c) (.e c') →
      Grows (.e (.mk (.Case c t f) sp)) (.e (.mk (.Case c' t f) sp))
  | case_true {c t t' f sp} :
      Grows (.e t) (.e t') →
      Grows (.e (.mk (.Case c t f) sp)) (.e (.mk (.Case c t' f) sp))
  | case_false {c t f f' sp} :
      Grows (.e f) (.e f') →
      Grows (.e (.mk (.Case c t f) sp)) (.e (.mk (.Case c t f') sp))
  | tuple {es es' sp} :
      Grows (.es es) (.es es') →
      Grows (.e (.mk (.Tuple es) sp)) (.e (.mk (.Tuple es') sp))
  | apply_a {a a' b sp} :
      Grows (.e a) (.e a') →
      Grows (.e (.mk (.Apply a b) sp)) (.e (.mk (.Apply a' b) sp))
  | apply_b {a b b' sp} :
      Grows (.e b) (.e b') →
      Grows (.e (.mk (.Apply a b) sp)) (.e (.mk (.Apply a b') sp))
  | ta_a {a a' b sp} :
      Grows (.e a) (.e a') →
      Grows (.e (.mk (.TypeAssertion a b) sp))
        (.e (.mk (.TypeAssertion a' b) sp))
  | ta_b {a b b' sp} :
      Grows (.e b) (.e b') →
      Grows (.e (.mk (.TypeAssertion a b) sp))
        (.e (.mk (.TypeAssertion a b') sp))
  | variant {its its' sp} :
      Grows (.vs its) (.vs its') →
      Grows (.e (.mk (.Variant its) sp)) (.e (.mk (.Variant its') sp))
  | ident {n n' sp} :
      Intern.len n < Intern.len n' →
      Grows (.e (.mk (.Ident n) sp)) (.e (.mk (.Ident n') sp))
  | lit_string {s s' sp} :
      Intern.len s < Intern.len s' →
      Grows (.e (.mk (.Literal (.String s)) sp))
        (.e (.mk (.Literal (.String s')) sp))
  | def_name {n n' v sp} :
      Intern.len n < Intern.len n' →
      Grows (.d (.mk n v sp)) (.d (.mk n' v sp))
  | def_value {n v v' sp} :
      Grows (.e v) (.e v') →
      Grows (.d (.mk n v sp)) (.d (.mk n v' sp))
  | item_expr {e e'} :
      Grows (.e e) (.e e') → Grows (.i (.Expr e)) (.i (.Expr e'))
  | item_def {d d'} :
      Grows (.d d) (.d d') → Grows (.i (.Def d)) (.i (.Def d'))
  | varit_value {n v v' sp} :
      Grows (.e v) (.e v') →
      Grows (.v (.mk n (some v) sp)) (.v (.mk n (some v') sp))
  | es_head {x x' xs} :
      Grows (.e x) (.e x') → Grows (.es (x :: xs)) (.es (x' :: xs))
  | es_tail {x xs xs'} :
      Grows (.es xs) (.es xs') → Grows (.es (x :: xs)) (.es (x :: xs'))
  | ds_head {x x' xs} :
      Grows (.d x) (.d x') → Grows (.ds (x :: xs)) (.ds (x' :: xs))
  | ds_tail {x xs xs'} :
      Grows (.ds xs) (.ds xs') → Grows (.ds (x :: xs)) (.ds (x :: xs'))
  | is_head {x x' xs} :
      Grows (.i x) (.i x') → Grows (.is (x :: xs)) (.is (x' :: xs))
  | is_tail {x xs xs'} :
      Grows (.is xs) (.is xs') → Grows (.is (x :: xs)) (.is (x :: xs'))
  | vs_head {x x' xs} :
      Grows (.v x) (.v x') → Grows (.vs (x :: xs)) (.vs (x' :: xs))
  | vs_tail {x xs xs'} :
      Grows (.vs xs) (.vs xs') → Grows (.vs (x :: xs)) (.vs (x :: xs'))

/-- The trees the `bin_op` folding loop can return starting from a first
operand `a`: either `a` itself, or a `BinOp` node over the previous fold
result whose span runs from that left operand's start to the left operand's
end (not the right operand's end). -/
inductive FoldedFrom (a : Expr) : Expr → Prop where
  | base : FoldedFrom a a
  | step {op : BinOp} {l r : Expr} :
      FoldedFrom a l →
      FoldedFrom a
        (.mk (.BinOp op l r) { start := l.span.start, «end» := l.span.«end» })

/-- All parsing methods of one fuel level only ever return structurally
well-formed trees (`OK`). -/
structure FnsOK (f : Fns) : Prop where
  object_body : ∀ ep ts ds ts1, f.object_body ep ts = .ok (ds, ts1) →
    ∀ d ∈ ds, OK (.d d)
  defP : ∀ ts d ts1, f.defP ts = .ok (d, ts1) → OK (.d d)
  def_block : ∀ ts v b ts1, f.def_block ts = .ok ((v, b), ts1) → OK (.e v)
  block : ∀ ts e ts1, f.block ts = .ok (e, ts1) → OK (.e e)
  scope : ∀ st ep ts e ts1, f.scope st ep ts = .ok (e, ts1) → OK (.e e)
  tuple : ∀ ts e ts1, f.tuple ts = .ok (e, ts1) → OK (.e e)
  def_expr : ∀ ts v b ts1, f.def_expr ts = .ok ((v, b), ts1) → OK (.e v)
  expr : ∀ ts e ts1, f.expr ts = .ok (e, ts1) → OK (.e e)
  logical : ∀ ts e ts1, f.logical ts = .ok (e, ts1) → OK (.e e)
  equal : ∀ ts e ts1, f.equal ts = .ok (e, ts1) → OK (.e e)
  cmp : ∀ ts e ts1, f.cmp ts = .ok (e, ts1) → OK (.e e)
  terms : ∀ ts e ts1, f.terms ts = .ok (e, ts1) → OK (.e e)
  factors : ∀ ts e ts1, f.factors ts = .ok (e, ts1) → OK (.e e)
  prefixP : ∀ ts e ts1, f.prefixP ts = .ok (e, ts1) → OK (.e e)
  suffix : ∀ ts e ts1, f.suffix ts = .ok (e, ts1) → OK (.e e)
  maybe_atom : ∀ ts oe ts1, f.maybe_atom ts = .ok (oe, ts1) →
    ∀ e, oe = some e → OK (.e e)
  variant : ∀ ts e ts1, f.variant ts = .ok (e, ts1) → OK (.e e)

/-- A parsing outcome that is not the model of an `unwrap` panic. -/
def NP {α : Type} (r : Except PErr α) : Prop := r ≠ .error .panicked

/-- No parsing method of one fuel level ever models a panic; `variant` is
guarded by its caller's `|` lookahead (the spec's §9 precondition), all other
methods are unconditional. -/
structure PanicFree (f : Fns) : Prop where
  object_body : ∀ ep ts, NP (f.object_body ep ts)
  defP : ∀ ts, NP (f.defP ts)
  def_block : ∀ ts, NP (f.def_block ts)
  block : ∀ ts, NP (f.block ts)
  scope : ∀ st ep ts, NP (f.scope st ep ts)
  tuple : ∀ ts, NP (f.tuple ts)
  def_expr : ∀ ts, NP (f.def_expr ts)
  expr : ∀ ts, NP (f.expr ts)
  logical : ∀ ts, NP (f.logical ts)
  equal : ∀ ts, NP (f.equal ts)
  cmp : ∀ ts, NP (f.cmp ts)
  terms : ∀ ts, NP (f.terms ts)
  factors : ∀ ts, NP (f.factors ts)
  prefixP : ∀ ts, NP (f.prefixP ts)
  suffix : ∀ ts, NP (f.suffix ts)
  maybe_atom : ∀ ts, NP (f.maybe_atom ts)
  variant : ∀ t rest, t.kind = TokenKind.Pipe → NP (f.variant (t :: rest))

theorem OK_object {ds : List Def} {sp : Span} (h : ∀ d ∈ ds, OK (.d d)) :
    OK (.e (.mk (.Object ds) sp)) :=
  ⟨.object (fun d hd => (h d hd).1), .object (fun d hd => (h d hd).2)⟩

theorem OK_scope {its : List Item} {sp : Span} (hlast : emptyOnlyLast its)
    (h : ∀ it ∈ its, OK (.i it)) : OK (.e (.mk (.Scope its) sp)) :=
  ⟨.scope (fun it hit => (h it hit).1),
   .scope hlast (fun it hit => (h it hit).2)⟩

theorem OK_lambda {a b : Expr} {sp : Span} (ha : OK (.e a)) (hb : OK (.e b)) :
    OK (.e (.mk (.Lambda a b) sp)) :=
  ⟨.lambda ha.1 hb.1, .lambda ha.2 hb.2⟩

theorem OK_binOp {op : BinOp} {l r : Expr} {sp : Span} (hl : OK (.e l))
    (hr : OK (.e r)) : OK (.e (.mk (.BinOp op l r) sp)) :=
  ⟨.binOp hl.1 hr.1, .binOp hl.2 hr.2⟩

theorem OK_unOp {op : UnOp} {a : Expr} {sp : Span} (ha : OK (.e a)) :
    OK (.e (.mk (.UnOp op a) sp)) :=
  ⟨.unOp ha.1, .unOp ha.2⟩

theorem OK_access {a : Expr} {prop : Intern} {sp : Span} (ha : OK (.e a)) :
    OK (.e (.mk (.Access a prop) sp)) :=
  ⟨.access ha.1, .access ha.2⟩

theorem OK_tuple {es : List Expr} {sp : Span} (hlen : es.length ≠ 1)
    (h : ∀ x ∈ es, OK (.e x)) : OK (.e (.mk (.Tuple es) sp)) :=
  ⟨.tuple hlen (fun x hx => (h x hx).1), .tuple (fun x hx => (h x hx).2)⟩

theorem OK_apply {a b : Expr} {sp : Span} (ha : OK (.e a)) (hb : OK (.e b)) :
    OK (.e (.mk (.Apply a b) sp)) :=
  ⟨.apply ha.1 hb.1, .apply ha.2 hb.2⟩

theorem OK_typeAssertion {a b : Expr} {sp : Span} (ha : OK (.e a))
    (hb : OK (.e b)) : OK (.e (.mk (.TypeAssertion a b) sp)) :=
  ⟨.typeAssertion ha.1 hb.1, .typeAssertion ha.2 hb.2⟩

theorem OK_variant {its : List VariantItem} {sp : Span}
    (h : ∀ v ∈ its, OK (.v v)) : OK (.e (.mk (.Variant its) sp)) :=
  ⟨.variant (fun v hv => (h v hv).1), .variant (fun v hv => (h v hv).2)⟩

theorem OK_ident {n : Intern} {sp : Span} : OK (.e (.mk (.Ident n) sp)) :=
  ⟨.ident, .ident⟩

theorem OK_literal {l : Literal} {sp : Span} :
    OK (.e (.mk (.Literal l) sp)) :=
  ⟨.literal, .literal⟩

theorem OK_defn {n : Intern} {v : Expr} {sp : Span} (hv : OK (.e v)) :
    OK (.d (.mk n v sp)) :=
  ⟨.defn hv.1, .defn hv.2⟩

theorem OK_itemExpr {e : Expr} (he : OK (.e e)) : OK (.i (.Expr e)) :=
  ⟨.itemExpr he.1, .itemExpr he.2⟩

theorem OK_itemDef {d : Def} (hd : OK (.d d)) : OK (.i (.Def d)) :=
  ⟨.itemDef hd.1, .itemDef hd.2⟩

theorem OK_itemEmpty : OK (.i .Empty) := ⟨.itemEmpty, .itemEmpty⟩

theorem OK_varitNone {n : Intern} {sp : Span} : OK (.v (.mk n none sp)) :=
  ⟨.varitNone, .varitNone⟩

theorem OK_varitSome {n : Intern} {v : Expr} {sp : Span} (hv : OK (.e v)) :
    OK (.v (.mk n (some v) sp)) :=
  ⟨.varitSome hv.1, .varitSome hv.2⟩

/-- The size utility is strictly monotone along one growth step. -/
theorem nodeSize_lt_of_grows (m : MemSize) :
    ∀ {a b : Node}, Grows a b → nodeSize m a < nodeSize m b := by
  intro a b h
  induction h with
  | object h ih => simpa [nodeSize, ast_size] using ih
  | scope h ih => simpa [nodeSize, ast_size] using ih
  | lambda_arg h ih => simp only [nodeSize, ast_size] at ih ⊢; omega
  | lambda_body h ih => simp only [nodeSize, ast_size] at ih ⊢; omega
  | sq_arg h ih => simp only [nodeSize, ast_size] at ih ⊢; omega
  | sq_expr h ih => simp only [nodeSize, ast_size] at ih ⊢; omega
  | bin_lhs h ih => simp only [nodeSize, ast_size] at ih ⊢; omega
  | bin_rhs h ih => simp only [nodeSize, ast_size] at ih ⊢; omega
  | un_arg h ih => simp only [nodeSize, ast_size] at ih ⊢; omega
  | access_expr h ih => simp only [nodeSize, ast_size] at ih ⊢; omega
  | access_prop h => simp only [nodeSize, ast_size]; omega
  | case_cond h ih => simp only [nodeSize, ast_size] at ih ⊢; omega
  | case_true h ih => simp only [nodeSize, ast_size] at ih ⊢; omega
  | case_false h ih => simp only [nodeSize, ast_size] at ih ⊢; omega
  | tuple h ih => simp only [nodeSize, ast_size] at ih ⊢; omega
  | apply_a h ih => simp only [nodeSize, ast_size] at ih ⊢; omega
  | apply_b h ih => simp only [nodeSize, ast_size] at ih ⊢; omega
  | ta_a h ih => simp only [nodeSize, ast_size] at ih ⊢; omega
  | ta_b h ih => simp only [nodeSize, ast_size] at ih ⊢; omega
  | variant h ih => simp only [nodeSize, ast_size] at ih ⊢; omega
  | ident h => simp only [nodeSize, ast_size]; omega
  | lit_string h => simp only [nodeSize, ast_size]; omega
  | def_name h => simp only [nodeSize, def_size]; omega
  | def_value h ih => simp only [nodeSize, def_size] at ih ⊢; omega
  | item_expr h ih => simp only [nodeSize, item_size] at ih ⊢; omega
  | item_def h ih => simp only [nodeSize, item_size] at ih ⊢; omega
  | varit_value h ih => simp only [nodeSize, varit_size] at ih ⊢; omega
  | es_head h ih => simp only [nodeSize, ast_sizes] at ih ⊢; omega
  | es_tail h ih => simp only [nodeSize, ast_sizes] at ih ⊢; omega
  | ds_head h ih => simp only [nodeSize, def_sizes] at ih ⊢; omega
  | ds_tail h ih => simp only [nodeSize, def_sizes] at ih ⊢; omega
  | is_head h ih => simp only [nodeSize, item_sizes] at ih ⊢; omega
  | is_tail h ih => simp only [nodeSize, item_sizes] at ih ⊢; omega
  | vs_head h ih => simp only [nodeSize, varit_sizes] at ih ⊢; omega
  | vs_tail h ih => simp only [nodeSize, varit_sizes] at ih ⊢; omega

/-! ## Structural invariants of the parser -/

theorem emptyOnlyLast_of_noEmpty :
    ∀ l : List Item, (∀ it ∈ l, it ≠ Item.Empty) → emptyOnlyLast l := by
  intro l
  induction l with
  | nil => intro _; trivial
  | cons hd tl ih =>
    intro h
    cases hd with
    | Expr e =>
      simpa [emptyOnlyLast] using
        ih (fun it hit => h it (List.mem_cons_of_mem _ hit))
    | Def d =>
      simpa [emptyOnlyLast] using
        ih (fun it hit => h it (List.mem_cons_of_mem _ hit))
    | Empty => exact absurd rfl (h Item.Empty (List.mem_cons_self _ _))

theorem emptyOnlyLast_append_empty :
    ∀ l : List Item, (∀ it ∈ l, it ≠ Item.Empty) →
      emptyOnlyLast (l ++ [Item.Empty]) := by
  intro l
  induction l with
  | nil => intro _; simp [emptyOnlyLast]
  | cons hd tl ih =>
    intro h
    cases hd with
    | Expr e =>
      simpa [emptyOnlyLast] using
        ih (fun it hit => h it (List.mem_cons_of_mem _ hit))
    | Def d =>
      simpa [emptyOnlyLast] using
        ih (fun it hit => h it (List.mem_cons_of_mem _ hit))
    | Empty => exact absurd rfl (h Item.Empty (List.mem_cons_self _ _))

theorem FoldedFrom.trans {a b c : Expr} (hab : FoldedFrom a b)
    (hbc : FoldedFrom b c) : FoldedFrom a c := by
  induction hbc with
  | base => exact hab
  | step h ih => exact .step ih

/-- Every successful run of the `bin_op` folding loop returns a left-spine
of `BinOp` nodes over the first operand, each carrying the truncated span. -/
theorem bin_op_loop_folded (next : P Expr) (pred : Token → Option BinOp) :
    ∀ n a ts e ts1, bin_op_loop next pred n a ts = .ok (e, ts1) →
      FoldedFrom a e := by
  intro n
  induction n with
  | zero => intro a ts e ts1 h; simp [bin_op_loop] at h
  | succ n ih =>
    intro a ts e ts1 h
    simp only [bin_op_loop] at h
    split at h
    · cases h; exact .base
    · split at h
      · cases h
      · exact FoldedFrom.trans (.step .base) (ih _ _ _ _ h)

theorem bin_op_loop_ok (next : P Expr) (pred : Token → Option BinOp)
    (hnext : ∀ ts e ts1, next ts = .ok (e, ts1) → OK (.e e)) :
    ∀ n a ts e ts1, bin_op_loop next pred n a ts = .ok (e, ts1) →
      OK (.e a) → OK (.e e) := by
  intro n
  induction n with
  | zero => intro a ts e ts1 h; simp [bin_op_loop] at h
  | succ n ih =>
    intro a ts e ts1 h ha
    simp only [bin_op_loop] at h
    split at h
    · cases h; exact ha
    · rename_i op ts2 heat
      split at h
      · cases h
      · rename_i b ts3 hb
        exact ih _ _ _ _ h (OK_binOp ha (hnext _ _ _ hb))

theorem bin_op_ok (next : P Expr) (pred : Token → Option BinOp) (n : Nat)
    (hnext : ∀ ts e ts1, next ts = .ok (e, ts1) → OK (.e e)) :
    ∀ ts e ts1, bin_op next pred n ts = .ok (e, ts1) → OK (.e e) := by
  intro ts e ts1 h
  simp only [bin_op] at h
  split at h
  · cases h
  · rename_i a ts2 ha
    exact bin_op_loop_ok next pred hnext n _ _ _ _ h (hnext _ _ _ ha)

theorem prefixF_ok (p : Fns)
    (hs : ∀ ts e ts1, p.suffix ts = .ok (e, ts1) → OK (.e e)) :
    ∀ n ts e ts1, prefixF p n ts = .ok (e, ts1) → OK (.e e) := by
  intro n
  induction n with
  | zero => intro ts e ts1 h; simp [prefixF] at h
  | succ n ih =>
    intro ts e ts1 h
    simp only [prefixF] at h
    split at h
    · split at h
      · cases h
      · rename_i a ts2 ha
        cases h
        exact OK_unOp (ih _ _ _ ha)
    · exact hs _ _ _ h

theorem object_body_loop_ok (defP : P Def) (ep : Token → Option Unit)
    (hdef : ∀ ts d ts1, defP ts = .ok (d, ts1) → OK (.d d)) :
    ∀ n acc ts ds ts1, object_body_loop defP ep n acc ts = .ok (ds, ts1) →
      (∀ d ∈ acc, OK (.d d)) → ∀ d ∈ ds, OK (.d d) := by
  intro n
  induction n with
  | zero => intro acc ts ds ts1 h; simp [object_body_loop] at h
  | succ n ih =>
    intro acc ts ds ts1 h hacc
    simp only [object_body_loop] at h
    split at h
    · cases h; exact hacc
    · split at h
      · cases h; exact hacc
      · split at h
        · cases h
        · rename_i d ts2 hd
          refine ih _ _ _ _ h ?_
          intro x hx
          rcases List.mem_append.mp hx with hx | hx
          · exact hacc x hx
          · rcases List.mem_singleton.mp hx with rfl
            exact hdef _ _ _ hd

theorem scope_loop_ok (tupleP : P Expr) (defP : P Def)
    (ep : Token → Option Token)
    (htup : ∀ ts e ts1, tupleP ts = .ok (e, ts1) → OK (.e e))
    (hdef : ∀ ts d ts1, defP ts = .ok (d, ts1) → OK (.d d)) :
    ∀ n acc semi ts body semi1 ts1,
      scope_loop tupleP defP ep n acc semi ts = .ok ((body, semi1), ts1) →
      (∀ it ∈ acc, OK (.i it) ∧ it ≠ Item.Empty) →
      ∀ it ∈ body, OK (.i it) ∧ it ≠ Item.Empty := by
  intro n
  induction n with
  | zero => intro acc semi ts body semi1 ts1 h; simp [scope_loop] at h
  | succ n ih =>
    intro acc semi ts body semi1 ts1 h hacc
    simp only [scope_loop] at h
    split at h
    · cases h; exact hacc
    · split at h
      · cases h; exact hacc
      · split at h
        · cases h; exact hacc
        · split at h
          · split at h
            · cases h
            · rename_i _ _ d ts2 hd
              refine ih _ _ _ _ _ _ h ?_
              intro x hx
              rcases List.mem_append.mp hx with hx | hx
              · exact hacc x hx
              · rcases List.mem_singleton.mp hx with rfl
                exact ⟨OK_itemDef (hdef _ _ _ hd), by intro hc; cases hc⟩
          · split at h
            · cases h
            · rename_i _ _ e2 ts2 he
              split at h
              · cases h
                rename_i hsemi
                intro x hx
                rcases List.mem_append.mp hx with hx | hx
                · exact hacc x hx
                · rcases List.mem_singleton.mp hx with rfl
                  exact ⟨OK_itemExpr (htup _ _ _ he), by intro hc; cases hc⟩
              · refine ih _ _ _ _ _ _ h ?_
                intro x hx
                rcases List.mem_append.mp hx with hx | hx
                · exact hacc x hx
                · rcases List.mem_singleton.mp hx with rfl
                  exact ⟨OK_itemExpr (htup _ _ _ he), by intro hc; cases hc⟩

theorem tuple_loop_ok (blockP : P Expr)
    (hblock : ∀ ts e ts1, blockP ts = .ok (e, ts1) → OK (.e e)) :
    ∀ n acc ts items ts1, tuple_loop blockP n acc ts = .ok (items, ts1) →
      (∀ x ∈ acc, OK (.e x)) → ∀ x ∈ items, OK (.e x) := by
  intro n
  induction n with
  | zero => intro acc ts items ts1 h; simp [tuple_loop] at h
  | succ n ih =>
    intro acc ts items ts1 h hacc
    simp only [tuple_loop] at h
    split at h
    · cases h; exact hacc
    · split at h
      · cases h
      · rename_i item ts2 hi
        refine ih _ _ _ _ h ?_
        intro x hx
        rcases List.mem_append.mp hx with hx | hx
        · exact hacc x hx
        · rcases List.mem_singleton.mp hx with rfl
          exact hblock _ _ _ hi

theorem tuple_loop_len (blockP : P Expr) :
    ∀ n acc ts items ts1, tuple_loop blockP n acc ts = .ok (items, ts1) →
      acc.length ≤ items.length := by
  intro n
  induction n with
  | zero => intro acc ts items ts1 h; simp [tuple_loop] at h
  | succ n ih =>
    intro acc ts items ts1 h
    simp only [tuple_loop] at h
    split at h
    · cases h; exact le_rfl
    · split at h
      · cases h
      · have := ih _ _ _ _ h
        simp only [List.length_append, List.length_cons, List.length_nil]
          at this
        omega

theorem suffix_loop_ok (maP : P (Option Expr))
    (hma : ∀ ts oe ts1, maP ts = .ok (oe, ts1) → ∀ e, oe = some e →
      OK (.e e)) :
    ∀ n a ts e ts1, suffix_loop maP n a ts = .ok (e, ts1) →
      OK (.e a) → OK (.e e) := by
  intro n
  induction n with
  | zero => intro a ts e ts1 h; simp [suffix_loop] at h
  | succ n ih =>
    intro a ts e ts1 h ha
    simp only [suffix_loop] at h
    split at h
    · exact ih _ _ _ _ h (OK_unOp ha)
    · split at h
      · split at h
        · cases h
        · exact ih _ _ _ _ h (OK_access ha)
      · split at h
        · cases h
        · rename_i arg ts2 harg
          exact ih _ _ _ _ h (OK_apply ha (hma _ _ _ harg arg rfl))
        · cases h; exact ha

theorem variant_loop_ok (exprP : P Expr)
    (hexpr : ∀ ts e ts1, exprP ts = .ok (e, ts1) → OK (.e e)) :
    ∀ n acc ts items ts1, variant_loop exprP n acc ts = .ok (items, ts1) →
      (∀ v ∈ acc, OK (.v v)) → ∀ v ∈ items, OK (.v v) := by
  intro n
  induction n with
  | zero => intro acc ts items ts1 h; simp [variant_loop] at h
  | succ n ih =>
    intro acc ts items ts1 h hacc
    simp only [variant_loop] at h
    split at h
    · cases h; exact hacc
    · split at h
      · cases h
      · split at h
        · split at h
          · cases h
          · rename_i e2 ts2 he
            refine ih _ _ _ _ h ?_
            intro x hx
            rcases List.mem_append.mp hx with hx | hx
            · exact hacc x hx
            · rcases List.mem_singleton.mp hx with rfl
              exact OK_varitSome (hexpr _ _ _ he)
        · refine ih _ _ _ _ h ?_
          intro x hx
          rcases List.mem_append.mp hx with hx | hx
          · exact hacc x hx
          · rcases List.mem_singleton.mp hx with rfl
            exact OK_varitNone

/-- Inversion for a successful `eat`: the head token matched. -/
theorem eat_some {α : Type} {pred : Token → Option α} {ts : List Token}
    {v : α} {ts1 : List Token} (h : eat pred ts = (some v, ts1)) :
    ∃ t, ts = t :: ts1 ∧ pred t = some v := by
  cases ts with
  | nil => simp [eat] at h
  | cons t rest =>
    simp only [eat] at h
    split at h
    · rename_i v2 hv
      simp only [Prod.mk.injEq, Option.some.injEq] at h
      obtain ⟨rfl, rfl⟩ := h
      exact ⟨t, rfl, hv⟩
    · simp at h

theorem vpredAtom_ok {t : Token} {spk : Span × ExprKind}
    (h : vpredAtom t = some spk) : OK (.e (.mk spk.2 spk.1)) := by
  unfold vpredAtom at h
  split at h
  · cases h; exact OK_literal
  · cases h; exact OK_literal
  · cases h; exact OK_literal
  · cases h; exact OK_ident
  · cases h

theorem object_bodyF_ok (p : Fns) (n : Nat) (hp : FnsOK p) :
    ∀ ep ts ds ts1, object_bodyF p n ep ts = .ok (ds, ts1) →
      ∀ d ∈ ds, OK (.d d) := by
  intro ep ts ds ts1 h
  exact object_body_loop_ok p.defP ep hp.defP n [] ts ds ts1 h (by simp)

theorem defF_ok (p : Fns) (hp : FnsOK p) :
    ∀ ts d ts1, defF p ts = .ok (d, ts1) → OK (.d d) := by
  intro ts d ts1 h
  simp only [defF] at h
  split at h
  · cases h
  · split at h
    · cases h
    · split at h
      · cases h
      · rename_i value needs_semi ts3 hdb
        split at h
        · cases h
        · cases h
          exact OK_defn (hp.def_block _ _ _ _ hdb)

theorem def_blockF_ok (p : Fns) (hp : FnsOK p) :
    ∀ ts v b ts1, def_blockF p ts = .ok ((v, b), ts1) → OK (.e v) := by
  intro ts v b ts1 h
  simp only [def_blockF] at h
  split at h
  · split at h
    · cases h
    · rename_i e2 ts3 hsc
      cases h
      exact hp.scope _ _ _ _ _ hsc
  · split at h
    · split at h
      · cases h
      · rename_i body_defs ts3 hob
        split at h
        · cases h
        · cases h
          exact OK_object (fun d hd => hp.object_body _ _ _ _ hob d hd)
    · exact hp.def_expr _ _ _ _ h

theorem blockF_ok (p : Fns) (hp : FnsOK p) :
    ∀ ts e ts1, blockF p ts = .ok (e, ts1) → OK (.e e) := by
  intro ts e ts1 h
  simp only [blockF] at h
  split at h
  · exact hp.scope _ _ _ _ _ h
  · split at h
    · split at h
      · cases h
      · rename_i body_defs ts3 hob
        split at h
        · cases h
        · cases h
          exact OK_object (fun d hd => hp.object_body _ _ _ _ hob d hd)
    · exact hp.expr _ _ _ h

theorem scope_finish_ok (ep : Token → Option Token) (start : Nat) :
    ∀ body semi ts e ts1, scope_finish ep start body semi ts = .ok (e, ts1) →
      (∀ it ∈ body, OK (.i it) ∧ it ≠ Item.Empty) → OK (.e e) := by
  intro body semi ts e ts1 h hbody
  simp only [scope_finish] at h
  split at h
  · cases h
  · cases h
    cases semi with
    | true =>
      refine @OK_scope (body ++ [Item.Empty]) _
        (emptyOnlyLast_append_empty body (fun it hit => (hbody it hit).2)) ?_
      intro it hit
      rcases List.mem_append.mp hit with hit | hit
      · exact (hbody it hit).1
      · rcases List.mem_singleton.mp hit with rfl
        exact OK_itemEmpty
    | false =>
      exact @OK_scope body _
        (emptyOnlyLast_of_noEmpty body (fun it hit => (hbody it hit).2))
        (fun it hit => (hbody it hit).1)

theorem scopeF_ok (p : Fns) (n : Nat) (hp : FnsOK p) :
    ∀ st ep ts e ts1, scopeF p n st ep ts = .ok (e, ts1) → OK (.e e) := by
  intro st ep ts e ts1 h
  simp only [scopeF] at h
  split at h
  · cases h
    exact OK_tuple (by simp) (by simp)
  · split at h
    · split at h
      · cases h
      · rename_i body semi ts2 hloop
        exact scope_finish_ok ep st _ _ _ _ _ h
          (scope_loop_ok p.tuple p.defP ep hp.tuple hp.defP n _ _ _ _ _ _
            hloop (by simp))
    · split at h
      · cases h
      · rename_i first ts2 hfirst
        split at h
        · cases h
          exact hp.tuple _ _ _ hfirst
        · split at h
          · cases h
          · split at h
            · cases h
            · rename_i body semi ts4 hloop
              refine scope_finish_ok ep st _ _ _ _ _ h
                (scope_loop_ok p.tuple p.defP ep hp.tuple hp.defP n _ _ _ _ _
                  _ hloop ?_)
              intro it hit
              rcases List.mem_singleton.mp hit with rfl
              exact ⟨OK_itemExpr (hp.tuple _ _ _ hfirst), by intro hc; cases hc⟩

theorem tupleF_ok (p : Fns) (n : Nat) (hp : FnsOK p) :
    ∀ ts e ts1, tupleF p n ts = .ok (e, ts1) → OK (.e e) := by
  intro ts e ts1 h
  simp only [tupleF] at h
  split at h
  · cases h
  · rename_i first ts2 hfirst
    split at h
    · rename_i hcomma
      split at h
      · cases h
      · rename_i items ts3 hloop
        split at h
        · rename_i f l hhead hlast
          cases h
          have hall : ∀ x ∈ items, OK (.e x) := by
            refine tuple_loop_ok p.block hp.block n _ _ _ _ hloop ?_
            intro x hx
            rcases List.mem_singleton.mp hx with rfl
            exact hp.block _ _ _ hfirst
          have hlen : items.length ≠ 1 := by
            cases ts2 with
            | nil => simp [has_peek] at hcomma
            | cons t rest =>
              simp only [has_peek] at hcomma
              obtain ⟨u, hu⟩ := Option.isSome_iff_exists.mp hcomma
              cases n with
              | zero => simp [tuple_loop] at hloop
              | succ k =>
                simp only [tuple_loop, eat, hu] at hloop
                split at hloop
                · cases hloop
                · have := tuple_loop_len p.block k _ _ _ _ hloop
                  simp only [List.length_append, List.length_cons,
                    List.length_nil] at this
                  omega
          exact OK_tuple hlen hall
        · cases h
    · cases h
      exact hp.block _ _ _ hfirst

theorem def_exprF_ok (p : Fns) (hp : FnsOK p) :
    ∀ ts v b ts1, def_exprF p ts = .ok ((v, b), ts1) → OK (.e v) := by
  intro ts v b ts1 h
  simp only [def_exprF] at h
  split at h
  · cases h
  · rename_i a0 ts2 ha0
    have ha0' : OK (.e a0) := hp.logical _ _ _ ha0
    split at h
    · cases h
    · rename_i a flag ts3 hsug
      have ha : OK (.e a) := by
        split at hsug
        · split at hsug
          · cases hsug
          · rename_i body ts4 hsc
            cases hsug
            exact OK_lambda ha0' (hp.scope _ _ _ _ _ hsc)
        · split at hsug
          · split at hsug
            · cases hsug
            · rename_i body_defs ts4 hob
              split at hsug
              · cases hsug
              · cases hsug
                exact OK_lambda ha0'
                  (OK_object (fun d hd => hp.object_body _ _ _ _ hob d hd))
          · cases hsug
            exact ha0'
      split at h
      · cases h
        exact ha
      · split at h
        · cases h
        · rename_i b2 ts5 hb
          cases h
          exact OK_typeAssertion ha (hp.logical _ _ _ hb)

theorem exprF_ok (p : Fns) (hp : FnsOK p) :
    ∀ ts e ts1, exprF p ts = .ok (e, ts1) → OK (.e e) := by
  intro ts e ts1 h
  simp only [exprF] at h
  split at h
  · cases h
  · rename_i a0 ts2 ha0
    have ha0' : OK (.e a0) := hp.logical _ _ _ ha0
    split at h
    · cases h
    · rename_i a ts3 hbr
      have ha : OK (.e a) := by
        split at hbr
        · split at hbr
          · cases hbr
          · rename_i body ts4 hsc
            cases hbr
            exact OK_lambda ha0' (hp.scope _ _ _ _ _ hsc)
        · cases hbr
          exact ha0'
      split at h
      · split at h
        · cases h
        · rename_i b2 ts5 hb
          cases h
          exact OK_typeAssertion ha (hp.logical _ _ _ hb)
      · split at h
        · split at h
          · cases h
          · rename_i body_defs ts5 hob
            split at h
            · cases h
            · cases h
              exact OK_lambda ha
                (OK_object (fun d hd => hp.object_body _ _ _ _ hob d hd))
        · cases h
          exact ha

theorem suffixF_ok (p : Fns) (n : Nat) (hp : FnsOK p) :
    ∀ ts e ts1, suffixF p n ts = .ok (e, ts1) → OK (.e e) := by
  intro ts e ts1 h
  simp only [suffixF] at h
  split at h
  · cases h
  · cases h
  · rename_i a ts2 hma
    exact suffix_loop_ok p.maybe_atom hp.maybe_atom n _ _ _ _ h
      (hp.maybe_atom _ _ _ hma a rfl)

theorem maybe_atomF_ok (p : Fns) (hp : FnsOK p) :
    ∀ ts oe ts1, maybe_atomF p ts = .ok (oe, ts1) → ∀ e, oe = some e →
      OK (.e e) := by
  intro ts oe ts1 h
  simp only [maybe_atomF] at h
  split at h
  · split at h
    · cases h
    · rename_i e2 ts3 hsc
      cases h
      intro e he
      cases he
      exact hp.scope _ _ _ _ _ hsc
  · split at h
    · split at h
      · cases h
      · rename_i e2 ts3 hv
        cases h
        intro e he
        cases he
        exact hp.variant _ _ _ hv
    · split at h
      · rename_i span2 kind2 ts3 hat
        cases h
        intro e he
        cases he
        obtain ⟨t, _, hpt⟩ := eat_some hat
        exact vpredAtom_ok hpt
      · cases h
        intro e he
        cases he

theorem variantF_ok (p : Fns) (n : Nat) (hp : FnsOK p) :
    ∀ ts e ts1, variantF p n ts = .ok (e, ts1) → OK (.e e) := by
  intro ts e ts1 h
  simp only [variantF] at h
  split at h
  · cases h
  · rename_i items ts2 hloop
    split at h
    · cases h
      exact OK_variant
        (fun v hv => variant_loop_ok p.expr hp.expr n _ _ _ _ hloop
          (by simp) v hv)
    · cases h

theorem mkFns_ok (p : Fns) (n : Nat) (hp : FnsOK p) : FnsOK (mkFns p n) where
  object_body := object_bodyF_ok p n hp
  defP := defF_ok p hp
  def_block := def_blockF_ok p hp
  block := blockF_ok p hp
  scope := scopeF_ok p n hp
  tuple := tupleF_ok p n hp
  def_expr := def_exprF_ok p hp
  expr := exprF_ok p hp
  logical := bin_op_ok p.equal vpredLogical n hp.equal
  equal := bin_op_ok p.cmp vpredEqual n hp.cmp
  cmp := bin_op_ok p.terms vpredCmp n hp.terms
  terms := bin_op_ok p.factors vpredTerms n hp.factors
  factors := bin_op_ok p.prefixP vpredFactors n hp.prefixP
  prefixP := prefixF_ok p hp.suffix n
  suffix := suffixF_ok p n hp
  maybe_atom := maybe_atomF_ok p hp
  variant := variantF_ok p n hp

theorem parseFns_ok : ∀ n, FnsOK (parseFns n) := by
  intro n
  induction n with
  | zero =>
    refine ⟨?_, ?_, ?_, ?_, ?_, ?_, ?_, ?_, ?_, ?_, ?_, ?_, ?_, ?_, ?_, ?_,
      ?_⟩
    · intro ep ts ds ts1 h; simp [parseFns, failFns] at h
    · intro ts d ts1 h; simp [parseFns, failFns] at h
    · intro ts v b ts1 h; simp [parseFns, failFns] at h
    · intro ts e ts1 h; simp [parseFns, failFns] at h
    · intro st ep ts e ts1 h; simp [parseFns, failFns] at h
    · intro ts e ts1 h; simp [parseFns, failFns] at h
    · intro ts v b ts1 h; simp [parseFns, failFns] at h
    · intro ts e ts1 h; simp [parseFns, failFns] at h
    · intro ts e ts1 h; simp [parseFns, failFns] at h
    · intro ts e ts1 h; simp [parseFns, failFns] at h
    · intro ts e ts1 h; simp [parseFns, failFns] at h
    · intro ts e ts1 h; simp [parseFns, failFns] at h
    · intro ts e ts1 h; simp [parseFns, failFns] at h
    · intro ts e ts1 h; simp [parseFns, failFns] at h
    · intro ts e ts1 h; simp [parseFns, failFns] at h
    · intro ts oe ts1 h; simp [parseFns, failFns] at h
    · intro ts e ts1 h; simp [parseFns, failFns] at h
  | succ n ih => exact mkFns_ok (parseFns n) n ih

theorem parse_ok :
    ∀ fuel ts e ts1, parse fuel ts = .ok (e, ts1) → OK (.e e) := by
  intro fuel ts e ts1 h
  simp only [parse] at h
  split at h
  · cases h
  · split at h
    · rename_i first last hhead hlast
      cases h
      rename_i defs ts2 hob
      exact OK_object (fun d hd => (parseFns_ok fuel).object_body _ _ _ _ hob d hd)
    · cases h
      exact OK_object (by simp)

/-! ## Panic freedom -/

theorem require_np {α : Type} (pred : Token → Option α) (ts : List Token) :
    NP (require pred ts) := by
  simp only [NP, require]
  split
  · simp
  · simp
  · rename_i e heq
    simp only [maybe_require] at heq
    split at heq
    · cases heq
    · split at heq
      · cases heq
      · cases heq
        simp

/-- An error propagated from a panic-free computation is not a panic. -/
theorem np_of_eq_error {α β : Type} {r : Except PErr α} {e : PErr}
    (hnp : NP r) (heq : r = .error e) : NP (.error e : Except PErr β) := by
  subst heq
  simp only [NP, ne_eq, Except.error.injEq] at hnp ⊢
  exact hnp

/-- Every successful run of the `variant` loop extends its accumulator. -/
theorem variant_loop_append (exprP : P Expr) :
    ∀ n acc ts items ts1, variant_loop exprP n acc ts = .ok (items, ts1) →
      ∃ newI, items = acc ++ newI := by
  intro n
  induction n with
  | zero => intro acc ts items ts1 h; simp [variant_loop] at h
  | succ n ih =>
    intro acc ts items ts1 h
    simp only [variant_loop] at h
    split at h
    · cases h; exact ⟨[], by simp⟩
    · split at h
      · cases h
      · split at h
        · split at h
          · cases h
          · obtain ⟨newI, hn⟩ := ih _ _ _ _ h
            exact ⟨_, by simpa [List.append_assoc] using hn⟩
        · obtain ⟨newI, hn⟩ := ih _ _ _ _ h
          exact ⟨_, by simpa [List.append_assoc] using hn⟩

theorem exists_cons_of_append {it0 : VariantItem} {acc newI : List VariantItem}
    {s : Nat} (h : it0.span.start = s) :
    ∃ it newI2, acc ++ [it0] ++ newI = acc ++ it :: newI2 ∧
      it.span.start = s :=
  ⟨it0, newI, by simp, h⟩

/-- When the stream starts with a `|`, a successful `variant` loop run
appends at least one item, whose span starts at that `|`. -/
theorem variant_loop_pipe (exprP : P Expr) :
    ∀ n acc t rest items ts1,
      variant_loop exprP n acc (t :: rest) = .ok (items, ts1) →
      t.kind = TokenKind.Pipe →
      ∃ it newI, items = acc ++ it :: newI ∧ it.span.start = t.span.start := by
  intro n acc t rest items ts1 h hpipe
  cases n with
  | zero => simp [variant_loop] at h
  | succ k =>
    have heat : eat (tpred TokenKind.Pipe) (t :: rest) = (some t, rest) := by
      simp [eat, tpred, hpipe]
    simp only [variant_loop, heat] at h
    split at h
    · cases h
    · split at h
      · split at h
        · cases h
        · obtain ⟨newI, hn⟩ := variant_loop_append exprP _ _ _ _ _ h
          subst hn
          exact exists_cons_of_append rfl
      · obtain ⟨newI, hn⟩ := variant_loop_append exprP _ _ _ _ _ h
        subst hn
        exact exists_cons_of_append rfl

theorem object_body_loop_np (defP : P Def) (ep : Token → Option Unit)
    (hdef : ∀ ts, NP (defP ts)) :
    ∀ n acc ts, NP (object_body_loop defP ep n acc ts) := by
  intro n
  induction n with
  | zero => intro acc ts; simp [object_body_loop, NP]
  | succ n ih =>
    intro acc ts
    simp only [object_body_loop]
    split
    · simp [NP]
    · split
      · simp [NP]
      · split
        · rename_i e heq
          exact np_of_eq_error (hdef _) heq
        · exact ih _ _

theorem scope_loop_np (tupleP : P Expr) (defP : P Def)
    (ep : Token → Option Token)
    (htup : ∀ ts, NP (tupleP ts)) (hdef : ∀ ts, NP (defP ts)) :
    ∀ n acc semi ts, NP (scope_loop tupleP defP ep n acc semi ts) := by
  intro n
  induction n with
  | zero => intro acc semi ts; simp [scope_loop, NP]
  | succ n ih =>
    intro acc semi ts
    simp only [scope_loop]
    split
    · simp [NP]
    · split
      · simp [NP]
      · split
        · simp [NP]
        · split
          · split
            · rename_i e heq
              exact np_of_eq_error (hdef _) heq
            · exact ih _ _ _
          · split
            · rename_i e heq
              exact np_of_eq_error (htup _) heq
            · split
              · simp [NP]
              · exact ih _ _ _

theorem tuple_loop_np (blockP : P Expr) (hblock : ∀ ts, NP (blockP ts)) :
    ∀ n acc ts, NP (tuple_loop blockP n acc ts) := by
  intro n
  induction n with
  | zero => intro acc ts; simp [tuple_loop, NP]
  | succ n ih =>
    intro acc ts
    simp only [tuple_loop]
    split
    · simp [NP]
    · split
      · rename_i e heq
        exact np_of_eq_error (hblock _) heq
      · exact ih _ _

theorem suffix_loop_np (maP : P (Option Expr))
    (hma : ∀ ts, NP (maP ts)) :
    ∀ n a ts, NP (suffix_loop maP n a ts) := by
  intro n
  induction n with
  | zero => intro a ts; simp [suffix_loop, NP]
  | succ n ih =>
    intro a ts
    simp only [suffix_loop]
    split
    · exact ih _ _
    · split
      · split
        · rename_i e heq
          exact np_of_eq_error (require_np vpredNameSpan _) heq
        · exact ih _ _
      · split
        · rename_i e heq
          exact np_of_eq_error (hma _) heq
        · exact ih _ _
        · simp [NP]

theorem variant_loop_np (exprP : P Expr) (hexpr : ∀ ts, NP (exprP ts)) :
    ∀ n acc ts, NP (variant_loop exprP n acc ts) := by
  intro n
  induction n with
  | zero => intro acc ts; simp [variant_loop, NP]
  | succ n ih =>
    intro acc ts
    simp only [variant_loop]
    split
    · simp [NP]
    · split
      · rename_i e heq
        exact np_of_eq_error (require_np vpredNameSpan _) heq
      · split
        · split
          · rename_i e heq
            exact np_of_eq_error (hexpr _) heq
          · exact ih _ _
        · exact ih _ _

theorem bin_op_loop_np (next : P Expr) (pred : Token → Option BinOp)
    (hnext : ∀ ts, NP (next ts)) :
    ∀ n a ts, NP (bin_op_loop next pred n a ts) := by
  intro n
  induction n with
  | zero => intro a ts; simp [bin_op_loop, NP]
  | succ n ih =>
    intro a ts
    simp only [bin_op_loop]
    split
    · simp [NP]
    · split
      · rename_i e heq
        exact np_of_eq_error (hnext _) heq
      · exact ih _ _

theorem bin_op_np (next : P Expr) (pred : Token → Option BinOp) (n : Nat)
    (hnext : ∀ ts, NP (next ts)) : ∀ ts, NP (bin_op next pred n ts) := by
  intro ts
  simp only [bin_op]
  split
  · rename_i e heq
    exact np_of_eq_error (hnext _) heq
  · exact bin_op_loop_np next pred hnext n _ _

theorem prefixF_np (p : Fns) (hs : ∀ ts, NP (p.suffix ts)) :
    ∀ n ts, NP (prefixF p n ts) := by
  intro n
  induction n with
  | zero => intro ts; simp [prefixF, NP]
  | succ n ih =>
    intro ts
    simp only [prefixF]
    split
    · split
      · rename_i e heq
        exact np_of_eq_error (ih _) heq
      · simp [NP]
    · exact hs _

theorem scope_finish_np (ep : Token → Option Token) (start : Nat)
    (body : List Item) (semi : Bool) :
    ∀ ts, NP (scope_finish ep start body semi ts) := by
  intro ts
  simp only [scope_finish]
  split
  · rename_i e heq
    exact np_of_eq_error (require_np ep _) heq
  · simp [NP]

theorem object_bodyF_np (p : Fns) (n : Nat) (hp : PanicFree p) :
    ∀ ep ts, NP (object_bodyF p n ep ts) := by
  intro ep ts
  simp only [object_bodyF]
  exact object_body_loop_np p.defP ep hp.defP n [] ts

theorem defF_np (p : Fns) (hp : PanicFree p) : ∀ ts, NP (defF p ts) := by
  intro ts
  simp only [defF]
  split
  · rename_i e heq
    exact np_of_eq_error (require_np _ _) heq
  · split
    · rename_i e heq
      exact np_of_eq_error (require_np _ _) heq
    · split
      · rename_i e heq
        exact np_of_eq_error (hp.def_block _) heq
      · split
        · rename_i e heq
          split at heq
          · exact np_of_eq_error (require_np _ _) heq
          · cases heq
        · simp [NP]

theorem def_blockF_np (p : Fns) (hp : PanicFree p) :
    ∀ ts, NP (def_blockF p ts) := by
  intro ts
  simp only [def_blockF]
  split
  · split
    · rename_i e heq
      exact np_of_eq_error (hp.scope _ _ _) heq
    · simp [NP]
  · split
    · split
      · rename_i e heq
        exact np_of_eq_error (hp.object_body _ _) heq
      · split
        · rename_i e heq
          exact np_of_eq_error (require_np _ _) heq
        · simp [NP]
    · exact hp.def_expr _

theorem blockF_np (p : Fns) (hp : PanicFree p) :
    ∀ ts, NP (blockF p ts) := by
  intro ts
  simp only [blockF]
  split
  · exact hp.scope _ _ _
  · split
    · split
      · rename_i e heq
        exact np_of_eq_error (hp.object_body _ _) heq
      · split
        · rename_i e heq
          exact np_of_eq_error (require_np _ _) heq
        · simp [NP]
    · exact hp.expr _

theorem scopeF_np (p : Fns) (n : Nat) (hp : PanicFree p) :
    ∀ st ep ts, NP (scopeF p n st ep ts) := by
  intro st ep ts
  simp only [scopeF]
  split
  · simp [NP]
  · split
    · split
      · rename_i e heq
        exact np_of_eq_error
          (scope_loop_np p.tuple p.defP ep hp.tuple hp.defP n _ _ _) heq
      · exact scope_finish_np ep st _ _ _
    · split
      · rename_i e heq
        exact np_of_eq_error (hp.tuple _) heq
      · split
        · simp [NP]
        · split
          · rename_i e heq
            exact np_of_eq_error (require_np _ _) heq
          · split
            · rename_i e heq
              exact np_of_eq_error
                (scope_loop_np p.tuple p.defP ep hp.tuple hp.defP n _ _ _) heq
            · exact scope_finish_np ep st _ _ _

theorem tupleF_np (p : Fns) (n : Nat) (hp : PanicFree p) :
    ∀ ts, NP (tupleF p n ts) := by
  intro ts
  simp only [tupleF]
  split
  · rename_i e heq
    exact np_of_eq_error (hp.block _) heq
  · rename_i first ts1 hfirst
    split
    · split
      · rename_i e heq
        exact np_of_eq_error (tuple_loop_np p.block hp.block n _ _) heq
      · rename_i items ts2 hloop
        split
        · simp [NP]
        · rename_i hno
          exfalso
          have hlen := tuple_loop_len p.block n _ _ _ _ hloop
          cases items with
          | nil => simp at hlen
          | cons a as =>
            have hsome : (a :: as).getLast?.isSome :=
              List.getLast?_isSome.mpr (by simp)
            obtain ⟨l, hl⟩ := Option.isSome_iff_exists.mp hsome
            exact hno a l rfl hl
    · simp [NP]

theorem def_exprF_np (p : Fns) (hp : PanicFree p) :
    ∀ ts, NP (def_exprF p ts) := by
  intro ts
  simp only [def_exprF]
  split
  · rename_i e heq
    exact np_of_eq_error (hp.logical _) heq
  · split
    · rename_i e heq
      split at heq
      · split at heq
        · rename_i e2 hsc
          cases heq
          exact np_of_eq_error (hp.scope _ _ _) hsc
        · cases heq
      · split at heq
        · split at heq
          · rename_i e2 hob
            cases heq
            exact np_of_eq_error (hp.object_body _ _) hob
          · split at heq
            · rename_i e2 hrc
              cases heq
              exact np_of_eq_error (require_np _ _) hrc
            · cases heq
        · cases heq
    · split
      · simp [NP]
      · split
        · rename_i e heq
          exact np_of_eq_error (hp.logical _) heq
        · simp [NP]

theorem exprF_np (p : Fns) (hp : PanicFree p) :
    ∀ ts, NP (exprF p ts) := by
  intro ts
  simp only [exprF]
  split
  · rename_i e heq
    exact np_of_eq_error (hp.logical _) heq
  · split
    · rename_i e heq
      split at heq
      · split at heq
        · rename_i e2 hsc
          cases heq
          exact np_of_eq_error (hp.scope _ _ _) hsc
        · cases heq
      · cases heq
    · split
      · split
        · rename_i e heq
          exact np_of_eq_error (hp.logical _) heq
        · simp [NP]
      · split
        · split
          · rename_i e heq
            exact np_of_eq_error (hp.object_body _ _) heq
          · split
            · rename_i e heq
              exact np_of_eq_error (require_np _ _) heq
            · simp [NP]
        · simp [NP]

theorem suffixF_np (p : Fns) (n : Nat) (hp : PanicFree p) :
    ∀ ts, NP (suffixF p n ts) := by
  intro ts
  simp only [suffixF]
  split
  · rename_i e heq
    exact np_of_eq_error (hp.maybe_atom _) heq
  · simp [NP]
  · exact suffix_loop_np p.maybe_atom hp.maybe_atom n _ _

theorem maybe_atomF_np (p : Fns) (hp : PanicFree p) :
    ∀ ts, NP (maybe_atomF p ts) := by
  intro ts
  simp only [maybe_atomF]
  split
  · split
    · rename_i e heq
      exact np_of_eq_error (hp.scope _ _ _) heq
    · simp [NP]
  · split
    · rename_i hpk
      split
      · rename_i e heq
        cases ts with
        | nil => simp [has_peek] at hpk
        | cons t rest =>
          have hkind : t.kind = TokenKind.Pipe := by
            by_cases hk : t.kind = TokenKind.Pipe
            · exact hk
            · simp [has_peek, bpred, hk] at hpk
          exact np_of_eq_error (hp.variant t rest hkind) heq
      · simp [NP]
    · split
      · simp [NP]
      · simp [NP]

theorem variantF_np (p : Fns) (n : Nat)
    (hexpr : ∀ ts, NP (p.expr ts)) :
    ∀ t rest, t.kind = TokenKind.Pipe → NP (variantF p n (t :: rest)) := by
  intro t rest hpipe
  simp only [variantF]
  split
  · rename_i e heq
    exact np_of_eq_error (variant_loop_np p.expr hexpr n _ _) heq
  · rename_i items ts1 hloop
    split
    · simp [NP]
    · rename_i hno
      exfalso
      obtain ⟨it, newI, hitems, hstart⟩ :=
        variant_loop_pipe p.expr n [] t rest _ _ hloop hpipe
      simp only [List.nil_append] at hitems
      subst hitems
      have hsome : (it :: newI).getLast?.isSome :=
        List.getLast?_isSome.mpr (by simp)
      obtain ⟨l, hl⟩ := Option.isSome_iff_exists.mp hsome
      exact hno it l rfl hl

theorem mkFns_np (p : Fns) (n : Nat) (hp : PanicFree p) :
    PanicFree (mkFns p n) where
  object_body := object_bodyF_np p n hp
  defP := defF_np p hp
  def_block := def_blockF_np p hp
  block := blockF_np p hp
  scope := scopeF_np p n hp
  tuple := tupleF_np p n hp
  def_expr := def_exprF_np p hp
  expr := exprF_np p hp
  logical := bin_op_np p.equal vpredLogical n hp.equal
  equal := bin_op_np p.cmp vpredEqual n hp.cmp
  cmp := bin_op_np p.terms vpredCmp n hp.terms
  terms := bin_op_np p.factors vpredTerms n hp.factors
  factors := bin_op_np p.prefixP vpredFactors n hp.prefixP
  prefixP := prefixF_np p hp.suffix n
  suffix := suffixF_np p n hp
  maybe_atom := maybe_atomF_np p hp
  variant := variantF_np p n hp.expr

theorem parseFns_np : ∀ n, PanicFree (parseFns n) := by
  intro n
  induction n with
  | zero =>
    refine ⟨?_, ?_, ?_, ?_, ?_, ?_, ?_, ?_, ?_, ?_, ?_, ?_, ?_, ?_, ?_, ?_,
      ?_⟩
    · intro ep ts; simp [parseFns, failFns, NP]
    · intro ts; simp [parseFns, failFns, NP]
    · intro ts; simp [parseFns, failFns, NP]
    · intro ts; simp [parseFns, failFns, NP]
    · intro st ep ts; simp [parseFns, failFns, NP]
    · intro ts; simp [parseFns, failFns, NP]
    · intro ts; simp [parseFns, failFns, NP]
    · intro ts; simp [parseFns, failFns, NP]
    · intro ts; simp [parseFns, failFns, NP]
    · intro ts; simp [parseFns, failFns, NP]
    · intro ts; simp [parseFns, failFns, NP]
    · intro ts; simp [parseFns, failFns, NP]
    · intro ts; simp [parseFns, failFns, NP]
    · intro ts; simp [parseFns, failFns, NP]
    · intro ts; simp [parseFns, failFns, NP]
    · intro ts; simp [parseFns, failFns, NP]
    · intro t rest hpipe; simp [parseFns, failFns, NP]
  | succ n ih => exact mkFns_np (parseFns n) n ih

/-! ## The claims -/

/-- C1: every `BinOp` node constructed by the `bin_op` folding loop carries a
span running from the left operand's start to the left operand's *end* (not
the right operand's end), so multi-operand spans are truncated; concretely,
`"1 + 2"` yields an `Add` node whose span ends at offset 1 although the right
operand ends at offset 5. -/
theorem claim_C1 :
    (∀ (next : P Expr) (pred : Token → Option BinOp) (n : Nat) (a : Expr)
        (ts : List Token) (e : Expr) (ts1 : List Token),
      bin_op_loop next pred n a ts = .ok (e, ts1) → FoldedFrom a e) ∧
    (parseFns 40).terms
        [tok (.Integer 1) 0 1, tok .Plus 2 3, tok (.Integer 2) 4 5] =
      .ok (astAdd, []) :=
  ⟨fun next pred n a ts e ts1 h => bin_op_loop_folded next pred n a ts e ts1 h,
   rfl⟩

/-- Witness for C1 at a concrete input: the loop run on the tail of
`"1 + 2"` produces a tree folded (with truncated spans) from the literal
`1`. -/
theorem claim_C1_witness : FoldedFrom oneLit astAdd :=
  claim_C1.1 (parseFns 40).factors vpredTerms 40 oneLit
    [tok .Plus 2 3, tok (.Integer 2) 4 5] astAdd [] rfl

/-- C2: the precedence ladder parses `"1 + 2 * 3"` as `Add(1, Mul(2, 3))`
(multiplicative binds tighter than additive) and `"a - b - c"` as
`Sub(Sub(a, b), c)` (each tier is left-associative). -/
theorem claim_C2 :
    (parseFns 40).expr toksArith = .ok (astArith, []) ∧
    (parseFns 40).expr toksSub = .ok (astSub, []) :=
  ⟨rfl, rfl⟩

/-- C3: `"(a; b)"` parses to a `Scope` with body `[Expr a, Expr b]` and no
trailing `Empty`, while `"(a; b;)"` parses to body
`[Expr a, Expr b, Empty]`. -/
theorem claim_C3 :
    (parseFns 40).expr toksScope1 = .ok (astScope1, []) ∧
    (parseFns 40).expr toksScope2 = .ok (astScope2, []) :=
  ⟨rfl, rfl⟩

/-- C4: on `"x .{ } :: T"`, the definition-value entry point `def_expr`
turns the `.{...}` body into a `Lambda` and then still applies `::`,
yielding a `TypeAssertion` over that `Lambda` (and consuming everything),
while the general entry point `expr` applies only the `.{...}` sugar and
leaves `":: T"` unconsumed; on `"x :: T .{ }"`, `expr` applies only `::`
(checked first) and leaves `".{ }"` unconsumed — the two sugars are mutually
exclusive in `expr`. -/
theorem claim_C4 :
    (parseFns 40).def_expr toksSugar =
      .ok ((.mk (.TypeAssertion astSugarLam (.mk (.Ident "T") (mkSpan 10 11)))
              (mkSpan 0 11), true), []) ∧
    (parseFns 40).expr toksSugar =
      .ok (astSugarLam, [tok .ColonColon 7 9, tok (.Name "T") 10 11]) ∧
    (parseFns 40).expr toksSugar2 =
      .ok (.mk (.TypeAssertion (.mk (.Ident "x") (mkSpan 0 1))
              (.mk (.Ident "T") (mkSpan 5 6))) (mkSpan 0 6),
           [tok .DotOpenBrace 7 9, tok .CloseBrace 10 11]) :=
  ⟨rfl, rfl, rfl⟩

/-- C5 counterexample: the claim "every `Tuple` node has at least two
elements" fails — parsing `"def f () ;"` produces a tree containing a
`Tuple` with zero elements (the degenerate empty scope `"()"`). -/
theorem claim_C5_counterexample :
    parse 40 toksDefUnit = .ok (astDefUnit, []) ∧
    ([] : List Expr).length < 2 :=
  ⟨rfl, by decide⟩

/-- C5 (amended): every `Tuple` node in any tree the parser produces has an
element count different from one — zero (the degenerate empty scope) or at
least two; a single item is never wrapped in a `Tuple`. -/
theorem claim_C5 :
    (∀ fuel ts e ts1, parse fuel ts = .ok (e, ts1) → TupleOK (.e e)) ∧
    (∀ fuel ts e ts1, (parseFns fuel).expr ts = .ok (e, ts1) →
      TupleOK (.e e)) :=
  ⟨fun fuel ts e ts1 h => (parse_ok fuel ts e ts1 h).1,
   fun fuel ts e ts1 h => ((parseFns_ok fuel).expr ts e ts1 h).1⟩

/-- Witness for C5 at a concrete input: the tree parsed from
`"def f x { x }"` satisfies the tuple-arity invariant. -/
theorem claim_C5_witness : TupleOK (.e astDefLam) :=
  claim_C5.1 40 toksDefLam astDefLam [] rfl

/-- C6: under the caller's lookahead precondition (the next token is a `|`),
`variant` never models a panic, and on success it returns a `Variant` node
with at least one item whose span runs from the first `|` (the peeked
token's start) through the last item's end. -/
theorem claim_C6 :
    ∀ fuel (t : Token) (rest : List Token), t.kind = TokenKind.Pipe →
      NP ((parseFns fuel).variant (t :: rest)) ∧
      (∀ e ts1, (parseFns fuel).variant (t :: rest) = .ok (e, ts1) →
        ∃ items f l, e.kind = ExprKind.Variant items ∧ items ≠ [] ∧
          items.head? = some f ∧ items.getLast? = some l ∧
          e.span.start = f.span.start ∧ f.span.start = t.span.start ∧
          e.span.«end» = l.span.«end») := by
  intro fuel t rest hpipe
  cases fuel with
  | zero =>
    constructor
    · simp [parseFns, failFns, NP]
    · intro e ts1 h
      simp [parseFns, failFns] at h
  | succ n =>
    constructor
    · exact variantF_np (parseFns n) n (parseFns_np n).expr t rest hpipe
    · intro e ts1 h
      have h2 : variantF (parseFns n) n (t :: rest) = .ok (e, ts1) := h
      simp only [variantF] at h2
      split at h2
      · cases h2
      · rename_i items ts2 hloop
        split at h2
        · rename_i f l hhead hlast
          cases h2
          obtain ⟨it, newI, hitems, hstart⟩ :=
            variant_loop_pipe (parseFns n).expr n [] t rest _ _ hloop hpipe
          simp only [List.nil_append] at hitems
          subst hitems
          have hf : it = f := by simpa using hhead
          subst hf
          exact ⟨it :: newI, it, l, rfl, by simp, hhead, hlast, rfl, hstart,
            rfl⟩
        · cases h2

/-- Witness for C6 at a concrete input: the variant literal `"|Ok: 1 |Err"`
(whose leading token is a `|` at offsets 0-1). -/
theorem claim_C6_witness :
    ∃ items f l, astVar.kind = ExprKind.Variant items ∧ items ≠ [] ∧
      items.head? = some f ∧ items.getLast? = some l ∧
      astVar.span.start = f.span.start ∧
      f.span.start = (tok .Pipe 0 1).span.start ∧
      astVar.span.«end» = l.span.«end» :=
  (claim_C6 40 (tok .Pipe 0 1) varRest rfl).2 astVar [] rfl

/-- C7 counterexample: the claim "every unexpected-token error produced when
a required token is present records that token's span" fails — parsing
`"def a = 1"` hits the `suffix` missing-atom error, which records the peeked
`=` token in the error kind yet leaves the span field absent. -/
theorem claim_C7_counterexample :
    parse 40 toksDefEq =
      .error (.perr { kind := .Unexpected (some (tok .Equal 6 7)),
                      span := none }) :=
  rfl

/-- C7 (amended): unexpected-token errors produced by `maybe_require` when a
token is present do record that token and its span, and stream exhaustion in
`require` yields an error with no token and no span; but the missing-atom
error raised at the head of `suffix` records the peeked token with an absent
span even though a token is present. -/
theorem claim_C7 :
    (∀ (α : Type) (pred : Token → Option α) (ts : List Token)
        (pe : ParseError), maybe_require pred ts = .error (.perr pe) →
      ∃ t rest, ts = t :: rest ∧ pe.span = some t.span ∧
        pe.kind = .Unexpected (some t)) ∧
    (∀ (α : Type) (pred : Token → Option α),
      require pred [] =
        .error (.perr { kind := .Unexpected none, span := none })) ∧
    (parseFns 40).suffix [tok .Semicolon 0 1] =
      .error (.perr { kind := .Unexpected (some (tok .Semicolon 0 1)),
                      span := none }) := by
  refine ⟨?_, fun α pred => rfl, rfl⟩
  intro α pred ts pe h
  cases ts with
  | nil => simp [maybe_require] at h
  | cons t rest =>
    simp only [maybe_require] at h
    split at h
    · cases h
    · cases h
      exact ⟨t, rest, rfl, rfl, rfl⟩

/-- Witness for C7 at a concrete input: `maybe_require` with the comma
predicate against a semicolon token records that token and its span. -/
theorem claim_C7_witness :
    ∃ t rest, [tok TokenKind.Semicolon 0 1] = t :: rest ∧
      (ParseError.mk (.Unexpected (some (tok TokenKind.Semicolon 0 1)))
          (some (mkSpan 0 1))).span = some t.span ∧
      (ParseError.mk (.Unexpected (some (tok TokenKind.Semicolon 0 1)))
          (some (mkSpan 0 1))).kind = .Unexpected (some t) :=
  claim_C7.1 Unit (bpred TokenKind.Comma) [tok TokenKind.Semicolon 0 1]
    (ParseError.mk (.Unexpected (some (tok TokenKind.Semicolon 0 1)))
      (some (mkSpan 0 1))) rfl

/-- C8: `"def f x { x }"` parses with no trailing semicolon and the value's
own end (offset 11) closes the definition's span; the expression-valued
`"def a x;"` requires its semicolon, whose end (offset 8) closes the span,
and without it parsing fails at stream end; `"def a = 1"` is a parse error
(with or without a trailing semicolon), since the `=` token cannot begin a
definition value. -/
theorem claim_C8 :
    parse 40 toksDefLam = .ok (astDefLam, []) ∧
    (parseFns 40).defP toksDefSemi =
      .ok (.mk "a" (.mk (.Ident "x") (mkSpan 6 7)) (mkSpan 0 8), []) ∧
    (parseFns 40).defP toksDefNoSemi =
      .error (.perr { kind := .Unexpected none, span := none }) ∧
    parse 40 toksDefEq =
      .error (.perr { kind := .Unexpected (some (tok .Equal 6 7)),
                      span := none }) ∧
    parse 40 toksDefEqSemi =
      .error (.perr { kind := .Unexpected (some (tok .Equal 6 7)),
                      span := none }) :=
  ⟨rfl, rfl, rfl, rfl, rfl⟩

/-- C9 counterexample: the claim "every piece of interned text, including
variant item names, contributes its byte length to `ast_size`" fails —
growing a variant item's name from `"a"` to `"ab"` leaves `ast_size`
unchanged, because `varit_size` ignores the name. -/
theorem claim_C9_counterexample :
    Intern.len "a" < Intern.len "ab" ∧
    ast_size (MemSize.mk 16 8 8)
        (.mk (.Variant [.mk "a" none (mkSpan 0 1)]) (mkSpan 0 1)) =
      ast_size (MemSize.mk 16 8 8)
        (.mk (.Variant [.mk "ab" none (mkSpan 0 1)]) (mkSpan 0 1)) :=
  ⟨by decide, rfl⟩

/-- C9 (amended): `ast_size` is deterministic, and strictly increases
whenever any size-counted interned text grows or any child subtree grows
(one `Grows` step anywhere in the tree) — for all record-size constants;
variant item names are the exception: `varit_size` is independent of the
item's name. -/
theorem claim_C9 :
    (∀ (m : MemSize) (e : Expr), ast_size m e = ast_size m e) ∧
    (∀ (m : MemSize) (a b : Node), Grows a b →
      nodeSize m a < nodeSize m b) ∧
    (∀ (m : MemSize) (n1 n2 : Intern) (v : Option Expr) (s : Span),
      varit_size m (.mk n1 v s) = varit_size m (.mk n2 v s)) := by
  refine ⟨fun _ _ => rfl, fun m a b h => nodeSize_lt_of_grows m h, ?_⟩
  intro m n1 n2 v s
  cases v with
  | none => rfl
  | some e => rfl

/-- Witness for C9 at a concrete growth step: lengthening the identifier
`"a"` to `"ab"` strictly increases the size. -/
theorem claim_C9_witness :
    nodeSize (MemSize.mk 16 8 8) (.e (.mk (.Ident "a") (mkSpan 0 1))) <
      nodeSize (MemSize.mk 16 8 8) (.e (.mk (.Ident "ab") (mkSpan 0 1))) :=
  claim_C9.2.1 (MemSize.mk 16 8 8) _ _ (Grows.ident (by decide))

/-- C10: in every `Scope` node the parser constructs, `Empty` occurs at most
once and only as the last body item; and a scope whose items are all
definitions, `"( def f {} )"`, ends with the `Empty` sentinel. -/
theorem claim_C10 :
    (∀ fuel ts e ts1, parse fuel ts = .ok (e, ts1) → EmptyOK (.e e)) ∧
    (∀ fuel ts e ts1, (parseFns fuel).expr ts = .ok (e, ts1) →
      EmptyOK (.e e)) ∧
    (parseFns 40).expr toksDefScope = .ok (astDefScope, []) :=
  ⟨fun fuel ts e ts1 h => (parse_ok fuel ts e ts1 h).2,
   fun fuel ts e ts1 h => ((parseFns_ok fuel).expr ts e ts1 h).2,
   rfl⟩

/-- Witness for C10 at a concrete input: the tree parsed from
`"( def f {} )"` satisfies the Empty-placement invariant. -/
theorem claim_C10_witness : EmptyOK (.e astDefScope) :=
  claim_C10.2.1 40 toksDefScope astDefScope [] rfl

end Radi
